import Mathlib

/-!
Verification of the QuectoClaw agent runtime core against its specification.

The Rust sources are shallowly embedded as executable Lean definitions:

* JSON values and a fueled JSON text parser stand in for serde_json
  (fuel 1000 plays the role of serde's bounded recursion; numbers keep
  their sign/integer-part and an integrality flag, which is all the code
  observes through as_u64; \uXXXX escapes are decoded without surrogate
  pairing, which no claim exercises).
* src/provider/mod.rs: Message, ToolCall, FunctionCall, LLMResponse,
  UsageInfo, StreamEvent and their methods.
* src/provider/http.rs: parse_response, the retry loop of chat, and
  process_sse_stream (chunks are modelled as UTF-8 strings; wall-clock
  sleeps are recorded as a count of fixed delays rather than real time).
* src/agent/mod.rs: execute_tools (the tokio JoinSet join order is an
  explicit parameter, since join_next yields tasks in completion order),
  run_agent_loop and the summarization trigger of maybe_summarize.
* src/session.rs: SessionManager as a pure cache/disk state.
-/

namespace QuectoClaw

/-- JSON values as observed by the code through serde_json's Value API.
Numbers record the signed integer part and whether the literal was an
integer (no fraction/exponent); that determines as_u64 exactly as in
serde_json for the magnitudes used here. -/
inductive Json where
  | null : Json
  | bool : Bool → Json
  | num : Int → Bool → Json
  | str : String → Json
  | arr : List Json → Json
  | obj : List (String × Json) → Json
deriving Repr

/-- Value::get(key): object member access; later duplicate members
shadow earlier ones, as with serde_json's map insertion. -/
def Json.getKey (j : Json) (k : String) : Option Json :=
  match j with
  | .obj ms => ((ms.reverse).find? (fun p => p.fst == k)).map (fun p => p.snd)
  | _ => none

/-- Value::get(index): array indexing. -/
def Json.getIdx (i : Nat) (j : Json) : Option Json :=
  match j with
  | .arr es => es.get? i
  | _ => none

/-- Value::as_str. -/
def Json.asStr (j : Json) : Option String :=
  match j with
  | .str s => some s
  | _ => none

/-- Value::as_u64: only non-negative integral numbers. -/
def Json.asU64 (j : Json) : Option Nat :=
  match j with
  | .num i isInt => if isInt ∧ 0 ≤ i then some i.toNat else none
  | _ => none

/-- Value::as_array. -/
def Json.asArr (j : Json) : Option (List Json) :=
  match j with
  | .arr es => some es
  | _ => none

/-- The whitespace serde_json's parser skips between tokens. -/
def isJsonWs (c : Char) : Bool :=
  c = ' ' ∨ c = '\t' ∨ c = '\n' ∨ c = '\r'

def skipWs : List Char → List Char
  | [] => []
  | c :: cs => if isJsonWs c then skipWs cs else c :: cs

def hexVal (c : Char) : Option Nat :=
  if '0' ≤ c ∧ c ≤ '9' then some (c.toNat - 48)
  else if 'a' ≤ c ∧ c ≤ 'f' then some (c.toNat - 87)
  else if 'A' ≤ c ∧ c ≤ 'F' then some (c.toNat - 55)
  else none

def escToChar (e : Char) : Option Char :=
  if e = '"' then some '"'
  else if e = '\\' then some '\\'
  else if e = '/' then some '/'
  else if e = 'n' then some '\n'
  else if e = 't' then some '\t'
  else if e = 'r' then some '\r'
  else if e = 'b' then some (Char.ofNat 8)
  else if e = 'f' then some (Char.ofNat 12)
  else none

/-- Body of a JSON string literal, after the opening quote: returns the
decoded characters and the input after the closing quote. -/
def parseStringBody : List Char → Option (List Char × List Char)
  | [] => none
  | c :: cs =>
    if c = '"' then some ([], cs)
    else if c = '\\' then
      match cs with
      | 'u' :: a :: b :: c2 :: d :: cs2 =>
        (match hexVal a, hexVal b, hexVal c2, hexVal d with
         | some ha, some hb, some hc, some hd =>
           (parseStringBody cs2).map
             (fun r => (Char.ofNat (((ha * 16 + hb) * 16 + hc) * 16 + hd) :: r.fst, r.snd))
         | _, _, _, _ => none)
      | e :: cs2 =>
        (match escToChar e with
         | some c3 => (parseStringBody cs2).map (fun r => (c3 :: r.fst, r.snd))
         | none => none)
      | [] => none
    else if c.toNat < 32 then none
    else (parseStringBody cs).map (fun r => (c :: r.fst, r.snd))

/-- Split off a maximal run of leading decimal digits. -/
def takeDigits : List Char → List Char × List Char
  | [] => ([], [])
  | c :: cs =>
    if c.isDigit then
      let r := takeDigits cs
      (c :: r.fst, r.snd)
    else ([], c :: cs)

def digitsToNat (ds : List Char) : Nat :=
  ds.foldl (fun a c => a * 10 + (c.toNat - 48)) 0

/-- Exponent part after the e/E marker: optional sign, then digits. -/
def parseExpPart (cs : List Char) : Option (List Char) :=
  let cs1 := match cs with
    | '+' :: r => r
    | '-' :: r => r
    | r => r
  let r := takeDigits cs1
  if r.fst = [] then none else some r.snd

/-- JSON number: sign, integer part (no leading zeros), optional
fraction and exponent; fraction or exponent marks it non-integral. -/
def parseNumber (cs : List Char) : Option (Json × List Char) :=
  let p := match cs with
    | '-' :: r => (true, r)
    | r => (false, r)
  let d := takeDigits p.snd
  if d.fst = [] then none
  else if d.fst.head? = some '0' ∧ d.fst.length > 1 then none
  else
    let i : Int := if p.fst then -(Int.ofNat (digitsToNat d.fst)) else Int.ofNat (digitsToNat d.fst)
    match d.snd with
    | '.' :: r =>
      let f := takeDigits r
      if f.fst = [] then none
      else
        (match f.snd with
         | 'e' :: r2 => (parseExpPart r2).map (fun rest => (Json.num i false, rest))
         | 'E' :: r2 => (parseExpPart r2).map (fun rest => (Json.num i false, rest))
         | rest => some (Json.num i false, rest))
    | 'e' :: r2 => (parseExpPart r2).map (fun rest => (Json.num i false, rest))
    | 'E' :: r2 => (parseExpPart r2).map (fun rest => (Json.num i false, rest))
    | rest => some (Json.num i true, rest)

/-- Parser modes: a single value, the elements of a non-empty array
(returned as Json.arr), or the members of a non-empty object (returned
as Json.obj). One fueled function keeps the recursion structural. -/
inductive PMode where
  | val : PMode
  | elems : PMode
  | members : PMode

/-- str::strip_prefix / literal matching: the rest of the input after
an expected literal front, or none. -/
def dropLeading : List Char → List Char → Option (List Char)
  | [], l => some l
  | _ :: _, [] => none
  | p :: ps, c :: cs => if c = p then dropLeading ps cs else none

/-- Match an exact literal continuation (the tails of null/true/false);
any mismatch is a parse error, as in serde. -/
def expectLit (lit : List Char) (cs : List Char) (v : Json) : Option (Json × List Char) :=
  match dropLeading lit cs with
  | some r => some (v, r)
  | none => none

def parseF : Nat → PMode → List Char → Option (Json × List Char)
  | 0, _, _ => none
  | Nat.succ fuel, PMode.val, cs =>
    (match skipWs cs with
     | [] => none
     | c :: r =>
       if c = 'n' then expectLit ("ull".data) r Json.null
       else if c = 't' then expectLit ("rue".data) r (Json.bool true)
       else if c = 'f' then expectLit ("alse".data) r (Json.bool false)
       else if c = '"' then (parseStringBody r).map (fun p => (Json.str (String.mk p.fst), p.snd))
       else if c = '[' then
         (match skipWs r with
          | ']' :: r2 => some (Json.arr [], r2)
          | r2 => parseF fuel PMode.elems r2)
       else if c = '{' then
         (match skipWs r with
          | '}' :: r2 => some (Json.obj [], r2)
          | r2 => parseF fuel PMode.members r2)
       else parseNumber (c :: r))
  | Nat.succ fuel, PMode.elems, cs =>
    (match parseF fuel PMode.val cs with
     | some (v, r) =>
       (match skipWs r with
        | ',' :: r2 =>
          (match parseF fuel PMode.elems r2 with
           | some (Json.arr es, rest) => some (Json.arr (v :: es), rest)
           | _ => none)
        | ']' :: r2 => some (Json.arr [v], r2)
        | _ => none)
     | none => none)
  | Nat.succ fuel, PMode.members, cs =>
    (match skipWs cs with
     | '"' :: r =>
       (match parseStringBody r with
        | some (k, r1) =>
          (match skipWs r1 with
           | ':' :: r2 =>
             (match parseF fuel PMode.val r2 with
              | some (v, r3) =>
                (match skipWs r3 with
                 | ',' :: r4 =>
                   (match parseF fuel PMode.members r4 with
                    | some (Json.obj ms, rest) => some (Json.obj ((String.mk k, v) :: ms), rest)
                    | _ => none)
                 | '}' :: r4 => some (Json.obj [(String.mk k, v)], r4)
                 | _ => none)
              | none => none)
           | _ => none)
        | none => none)
     | _ => none)

/-- serde_json::from_str on a whole document: one value, then only
trailing whitespace. Fuel 1000 bounds the recursion like serde's own
depth limit; every input in this development stays far below it. -/
def parseJson (s : String) : Option Json :=
  match parseF 1000 PMode.val s.data with
  | some (v, rest) => if skipWs rest = [] then some v else none
  | none => none

/-! ## Provider data model (src/provider/mod.rs) -/

structure FunctionCall where
  name : String
  arguments : String
deriving Repr

structure ToolCall where
  id : String
  call_type : Option String
  function : Option FunctionCall
  name : Option String
  arguments : Option (List (String × Json))
deriving Repr

instance : Inhabited ToolCall :=
  ⟨⟨"", none, none, none, none⟩⟩

/-- ToolCall::function_name. -/
def ToolCall.function_name (tc : ToolCall) : String :=
  match tc.function with
  | some f => f.name
  | none =>
    match tc.name with
    | some n => n
    | none => ""

/-- ToolCall::parsed_arguments: serde_json::from_str of the nested
arguments string (an object, or unwrap_or_default gives the empty map),
else the flat arguments field, else empty. -/
def ToolCall.parsed_arguments (tc : ToolCall) : List (String × Json) :=
  match tc.function with
  | some f =>
    (match parseJson f.arguments with
     | some (Json.obj ms) => ms
     | _ => [])
  | none =>
    match tc.arguments with
    | some args => args
    | none => []

structure Message where
  role : String
  content : String
  tool_calls : Option (List ToolCall)
  tool_call_id : Option String
deriving Repr

def Message.system (content : String) : Message :=
  ⟨"system", content, none, none⟩

def Message.user (content : String) : Message :=
  ⟨"user", content, none, none⟩

def Message.assistant (content : String) : Message :=
  ⟨"assistant", content, none, none⟩

def Message.assistant_with_tool_calls (content : String) (tool_calls : List ToolCall) : Message :=
  ⟨"assistant", content, if tool_calls.isEmpty then none else some tool_calls, none⟩

def Message.tool_result (tool_call_id : String) (content : String) : Message :=
  ⟨"tool", content, none, some tool_call_id⟩

structure UsageInfo where
  prompt_tokens : Nat
  completion_tokens : Nat
  total_tokens : Nat
deriving Repr, DecidableEq

structure LLMResponse where
  content : String
  tool_calls : Option (List ToolCall)
  finish_reason : String
  usage : Option UsageInfo
deriving Repr

/-- LLMResponse::has_tool_calls. -/
def LLMResponse.has_tool_calls (r : LLMResponse) : Bool :=
  match r.tool_calls with
  | some tc => ¬ tc.isEmpty
  | none => false

/-- Events emitted during streaming. -/
inductive StreamEvent where
  | token : String → StreamEvent
  | toolCallDelta : Nat → Option String → Option String → String → StreamEvent
  | done : LLMResponse → StreamEvent
  | error : String → StreamEvent
deriving Repr

/-- ToolResult (src/tool/mod.rs); is_async dropped as no claim reads it. -/
structure ToolResult where
  for_llm : String
  for_user : String
  is_error : Bool
deriving Repr

/-! ## parse_response (src/provider/http.rs) -/

/-- The usage extraction shared by parse_response and the SSE path:
each counter via as_u64, defaulting to 0. -/
def extractUsage (u : Json) : UsageInfo :=
  { prompt_tokens := ((u.getKey "prompt_tokens").bind Json.asU64).getD 0
    completion_tokens := ((u.getKey "completion_tokens").bind Json.asU64).getD 0
    total_tokens := ((u.getKey "total_tokens").bind Json.asU64).getD 0 }

/-- One element of the message's tool_calls array in parse_response. -/
def parseToolCallJson (tc : Json) : ToolCall :=
  { id := ((tc.getKey "id").bind Json.asStr).getD ""
    call_type := (tc.getKey "type").bind Json.asStr
    function :=
      match tc.getKey "function" with
      | some f =>
        some { name := ((f.getKey "name").bind Json.asStr).getD ""
               arguments := ((f.getKey "arguments").bind Json.asStr).getD "\x7b\x7d" }
      | none => none
    name := none
    arguments := none }

/-- parse_response: errors are surfaced as Except.error with the
source's message text (the serde parse error itself is abstracted to a
fixed string, as only its presence matters). -/
def parse_response (body : String) : Except String LLMResponse :=
  match parseJson body with
  | none => Except.error "invalid response body"
  | some v =>
    match v.getKey "error" with
    | some err =>
      Except.error ("LLM API error: " ++ (((err.getKey "message").bind Json.asStr).getD "unknown error"))
    | none =>
      match ((v.getKey "choices").bind Json.asArr).bind List.head? with
      | none => Except.error "No choices in LLM response"
      | some choice =>
        match choice.getKey "message" with
        | none => Except.error "No message in choice"
        | some message =>
          let content := ((message.getKey "content").bind Json.asStr).getD ""
          let finish_reason := ((choice.getKey "finish_reason").bind Json.asStr).getD "stop"
          let tool_calls :=
            match (message.getKey "tool_calls").bind Json.asArr with
            | some arr =>
              let calls := arr.map parseToolCallJson
              if calls.isEmpty then none else some calls
            | none => none
          let usage := (v.getKey "usage").map extractUsage
          Except.ok { content := content, tool_calls := tool_calls,
                      finish_reason := finish_reason, usage := usage }

/-! ## HTTPProvider::chat retry loop (src/provider/http.rs lines 100-166)

The transport is an oracle mapping each attempt number to its outcome:
a connection error or an HTTP status plus body. Wall-clock sleeps are
recorded as a list of fixed delays. -/

inductive AttemptOutcome where
  | connErr : String → AttemptOutcome
  | status : Nat → String → AttemptOutcome
deriving Repr, DecidableEq

/-- reqwest StatusCode::is_success. -/
def isSuccessCode (c : Nat) : Bool := 200 ≤ c ∧ c ≤ 299

/-- is_server_error() or 429: the transient test of chat. -/
def isTransientStatus (c : Nat) : Bool := (500 ≤ c ∧ c ≤ 599) ∨ c = 429

/-- The error text an attempt surfaces when it fails (status formatting
abbreviated to the numeric code; only identity of the text matters). -/
def errorTextOf : AttemptOutcome → String
  | .connErr e => e
  | .status c body => "LLM API error (" ++ toString c ++ "): " ++ body

/-- An attempt that fails but is retriable: connection error, or a
non-success transient status. -/
def transientFail : AttemptOutcome → Bool
  | .connErr _ => true
  | .status c _ => ¬ isSuccessCode c ∧ isTransientStatus c

/-- The for-loop of chat. Fuel counts the remaining loop iterations
(maxRetries + 1 - attempt, so the 0 case is the dead fallback after the
loop). Returns the result, the number of attempts made, and the list of
sleeps performed (one fixed delay before every retry). -/
def chatLoop (outcomes : Nat → AttemptOutcome) (maxRetries : Nat) (retryDelayMs : Nat) :
    Nat → Nat → Option String → Except String LLMResponse × Nat × List Nat
  | 0, attempt, lastError =>
    (Except.error (lastError.getD ("LLM request failed after " ++ toString (maxRetries + 1) ++ " attempts")),
     attempt, List.replicate attempt retryDelayMs |>.tail)
  | Nat.succ fuel, attempt, _lastError =>
    match outcomes attempt with
    | .status code body =>
      if isSuccessCode code then
        (parse_response body, attempt + 1, List.replicate attempt retryDelayMs)
      else if isTransientStatus code ∧ attempt < maxRetries then
        chatLoop outcomes maxRetries retryDelayMs fuel (attempt + 1)
          (some (errorTextOf (.status code body)))
      else
        (Except.error (errorTextOf (.status code body)), attempt + 1,
         List.replicate attempt retryDelayMs)
    | .connErr e =>
      if attempt < maxRetries then
        chatLoop outcomes maxRetries retryDelayMs fuel (attempt + 1) (some e)
      else
        (Except.error e, attempt + 1, List.replicate attempt retryDelayMs)

/-- HTTPProvider::chat for a fixed request: the retry loop over the
transport oracle. -/
def chat (outcomes : Nat → AttemptOutcome) (maxRetries : Nat) (retryDelayMs : Nat) :
    Except String LLMResponse × Nat × List Nat :=
  chatLoop outcomes maxRetries retryDelayMs (maxRetries + 1) 0 none

def chatResult (outcomes : Nat → AttemptOutcome) (maxRetries : Nat) : Except String LLMResponse :=
  (chat outcomes maxRetries 0).fst

def chatAttemptCount (outcomes : Nat → AttemptOutcome) (maxRetries : Nat) : Nat :=
  (chat outcomes maxRetries 0).snd.fst

/-! ## process_sse_stream (src/provider/http.rs lines 275-474) -/

/-- One accumulating tool-call fragment entry: (id, name, arguments). -/
structure ToolAccEntry where
  id : String
  name : String
  args : String
deriving Repr

/-- Accumulated streaming state (buffer handled separately). -/
structure SseState where
  full_content : String
  finish_reason : String
  tool_calls_acc : List (Nat × ToolAccEntry)
  usage_info : Option UsageInfo
deriving Repr

def initialSseState : SseState :=
  { full_content := "", finish_reason := "stop", tool_calls_acc := [], usage_info := none }

/-- The body of the per-fragment entry mutation: id/name overwrite when
present, the arguments fragment is appended. -/
def applyDelta (e : ToolAccEntry) (id name : Option String) (args : String) : ToolAccEntry :=
  { id := id.getD e.id, name := name.getD e.name, args := e.args ++ args }

/-- tool_calls_acc.entry(index).or_insert_with(default) followed by the
mutation. The HashMap is an association list; its order is irrelevant
because finalization sorts by the (unique) index key. -/
def accStep (acc : List (Nat × ToolAccEntry)) (index : Nat)
    (id name : Option String) (args : String) : List (Nat × ToolAccEntry) :=
  if acc.any (fun p => p.fst == index) then
    acc.map (fun p => if p.fst == index then (p.fst, applyDelta p.snd id name args) else p)
  else
    acc ++ [(index, applyDelta ⟨"", "", ""⟩ id name args)]

def insertByKey (p : Nat × ToolAccEntry) : List (Nat × ToolAccEntry) → List (Nat × ToolAccEntry)
  | [] => [p]
  | q :: qs => if p.fst ≤ q.fst then p :: q :: qs else q :: insertByKey p qs

/-- calls.sort_by_key(index): with unique keys any stable sort gives
this unique key-ordered arrangement, so the HashMap drain order never
shows. -/
def sortByKey : List (Nat × ToolAccEntry) → List (Nat × ToolAccEntry)
  | [] => []
  | p :: ps => insertByKey p (sortByKey ps)

/-- Sentinel-time conversion of the accumulator into the response's
tool-call list (None when no fragments arrived). -/
def finalizeToolCalls (acc : List (Nat × ToolAccEntry)) : Option (List ToolCall) :=
  if acc.isEmpty then none
  else
    some ((sortByKey acc).map (fun p =>
      { id := p.snd.id
        call_type := some "function"
        function := some { name := p.snd.name, arguments := p.snd.args }
        name := none
        arguments := none }))

/-- The synthesized final response (both at the [DONE] sentinel and at
the best-effort flush). -/
def buildResponse (st : SseState) : LLMResponse :=
  { content := st.full_content
    tool_calls := finalizeToolCalls st.tool_calls_acc
    finish_reason := st.finish_reason
    usage := st.usage_info }

/-- The (index, id?, name?, arguments-fragment) quadruples the code
extracts from a delta's tool_calls array. -/
def extractToolDeltas (delta : Json) : List (Nat × Option String × Option String × String) :=
  match (delta.getKey "tool_calls").bind Json.asArr with
  | some tcs =>
    tcs.map (fun tc =>
      (((tc.getKey "index").bind Json.asU64).getD 0,
       (tc.getKey "id").bind Json.asStr,
       ((tc.getKey "function").bind (fun f => f.getKey "name")).bind Json.asStr,
       (((tc.getKey "function").bind (fun f => f.getKey "arguments")).bind Json.asStr).getD ""))
  | none => []

/-- Fold the tool-call fragments of one frame into the state, emitting
one ToolCallDelta event per fragment (in array order). -/
def stepToolDeltas (st : SseState) :
    List (Nat × Option String × Option String × String) → SseState × List StreamEvent
  | [] => (st, [])
  | (index, id, name, args) :: ds =>
    let st' := { st with tool_calls_acc := accStep st.tool_calls_acc index id name args }
    let r := stepToolDeltas st' ds
    (r.fst, StreamEvent.toolCallDelta index id name args :: r.snd)

/-- The delta handling of one frame: the content delta (forwarded as a
Token only when non-empty) then the tool-call deltas. -/
def deltaStage (st : SseState) (delta : Json) : SseState × List StreamEvent :=
  let cp :=
    match (delta.getKey "content").bind Json.asStr with
    | some c =>
      if ¬ (c = "") then
        ({ st with full_content := st.full_content ++ c }, [StreamEvent.token c])
      else (st, [])
    | none => (st, [])
  let r := stepToolDeltas cp.fst (extractToolDeltas delta)
  (r.fst, cp.snd ++ r.snd)

/-- Processing of one parsed SSE data frame (the serde_json::from_str
Ok branch): finish_reason and usage extraction, then the delta stage. -/
def processDataJson (st : SseState) (v : Json) : SseState × List StreamEvent :=
  let st :=
    match (((v.getKey "choices").bind (Json.getIdx 0)).bind
              (fun c => c.getKey "finish_reason")).bind Json.asStr with
    | some fr => { st with finish_reason := fr }
    | none => st
  let st :=
    match v.getKey "usage" with
    | some u => { st with usage_info := some (extractUsage u) }
    | none => st
  match ((v.getKey "choices").bind (Json.getIdx 0)).bind (fun c => c.getKey "delta") with
  | none => (st, [])
  | some delta => deltaStage st delta

/-- Rust str::trim, restricted to the ASCII whitespace that can occur
here. -/
def dropWsLeft : List Char → List Char
  | [] => []
  | c :: cs => if isJsonWs c then dropWsLeft cs else c :: cs

def trimChars (l : List Char) : List Char :=
  (dropWsLeft ((dropWsLeft l).reverse)).reverse

/-- Outcome of processing one complete (already trimmed) line. -/
inductive LineResult where
  | cont : SseState → List StreamEvent → LineResult
  | finished : List StreamEvent → LineResult

/-- The data-line payload handling: [DONE] emits the synthesized Done
and ends the stream; otherwise parse the JSON delta (parse failures
are skipped). -/
def processData (st : SseState) (data0 : List Char) : LineResult :=
  let data := trimChars data0
  if data = "[DONE]".data then
    .finished [StreamEvent.done (buildResponse st)]
  else
    match parseF 1000 PMode.val data with
    | some (v, rest) =>
      if skipWs rest = [] then
        let r := processDataJson st v
        .cont r.fst r.snd
      else .cont st []
    | none => .cont st []

/-- The body of the per-line while loop: skip blank/comment lines and
non-data lines, then handle the data payload. -/
def processLine (st : SseState) (line : List Char) : LineResult :=
  if line.isEmpty ∨ line.head? = some ':' then .cont st []
  else
    match dropLeading ("data: ".data) line with
    | none => .cont st []
    | some data0 => processData st data0

/-- Split a buffer into its complete lines (text before each newline)
and the trailing remainder that stays in the buffer. -/
def splitLines : List Char → List (List Char) × List Char
  | [] => ([], [])
  | c :: cs =>
    let r := splitLines cs
    if c = '\n' then ([] :: r.fst, r.snd)
    else
      match r.fst with
      | [] => ([], c :: r.snd)
      | l :: ls => ((c :: l) :: ls, r.snd)

/-- Outcome of draining the complete lines of one chunk. -/
inductive BufOutcome where
  | cont : SseState → List StreamEvent → BufOutcome
  | finished : List StreamEvent → BufOutcome

/-- Process the complete lines of the buffer in order, stopping (like
the early return) at the [DONE] sentinel. -/
def processLines (st : SseState) : List (List Char) → BufOutcome
  | [] => .cont st []
  | l :: ls =>
    match processLine st (trimChars l) with
    | .finished evs => .finished evs
    | .cont st' evs =>
      match processLines st' ls with
      | .finished evs2 => .finished (evs ++ evs2)
      | .cont st2 evs2 => .cont st2 (evs ++ evs2)

/-- The best-effort flush after the byte stream ends without [DONE]:
whatever was accumulated is still delivered as a Done event. -/
def flushTail (st : SseState) : List StreamEvent :=
  if ¬ (st.full_content = "") ∨ ¬ st.tool_calls_acc.isEmpty then
    [StreamEvent.done (buildResponse st)]
  else []

/-- The chunk loop of process_sse_stream: a transport chunk error emits
an Error event and breaks to the flush; a [DONE] line returns without
flushing; the end of the stream flushes. Chunks are UTF-8 strings (the
from_utf8_lossy byte handling is not modelled below the char level). -/
def processChunks (st : SseState) (buffer : List Char) :
    List (Except String String) → List StreamEvent
  | [] => flushTail st
  | (Except.error e) :: _ =>
    StreamEvent.error ("Stream error: " ++ e) :: flushTail st
  | (Except.ok c) :: rest =>
    let sp := splitLines (buffer ++ c.data)
    match processLines st sp.fst with
    | .finished evs => evs
    | .cont st' evs => evs ++ processChunks st' sp.snd rest

/-- process_sse_stream over a whole chunk sequence. -/
def processSseStream (chunks : List (Except String String)) : List StreamEvent :=
  processChunks initialSseState [] chunks

/-! ## Agent loop (src/agent/mod.rs)

The tool registry is an oracle exec : name → args → ToolResult. The
tokio JoinSet yields joined tasks in completion order, so
execute_tools takes that order as an explicit outcome list: inl i is
the task of call i joining successfully, inr e is a join error
(panicked task), which the code converts into a placeholder result.
Durations and metrics are observability only and are dropped. -/

structure InternalToolResult where
  tool_call_id : String
  tool_name : String
  output : String
  success : Bool
deriving Repr

/-- The closure spawned per tool call (lines 439-453). -/
def runOneTool (exec : String → List (String × Json) → ToolResult) (tc : ToolCall) :
    InternalToolResult :=
  let result := exec tc.function_name tc.parsed_arguments
  { tool_call_id := tc.id
    tool_name := tc.function_name
    output := result.for_llm
    success := ¬ result.is_error }

/-- The join-error branch (lines 460-469). -/
def panicResult (e : String) : InternalToolResult :=
  { tool_call_id := "unknown"
    tool_name := "panic"
    output := "Tool execution panicked: " ++ e
    success := false }

/-- A join-outcome list is valid for a batch of k tasks when every task
joins exactly once: k outcomes, successful ones carrying distinct
indices below k. -/
def okIndices (outcomes : List (Nat ⊕ String)) : List Nat :=
  outcomes.filterMap (fun o => match o with | Sum.inl i => some i | Sum.inr _ => none)

def ValidOutcomes (k : Nat) (outcomes : List (Nat ⊕ String)) : Prop :=
  outcomes.length = k ∧ (∀ i ∈ okIndices outcomes, i < k) ∧ (okIndices outcomes).Nodup

/-- AgentLoop::execute_tools: results are pushed in join (completion)
order, with no reordering by original index. -/
def execute_tools (exec : String → List (String × Json) → ToolResult)
    (tool_calls : List ToolCall) (outcomes : List (Nat ⊕ String)) : List InternalToolResult :=
  outcomes.map (fun o =>
    match o with
    | Sum.inl i => runOneTool exec (tool_calls.getD i default)
    | Sum.inr e => panicResult e)

/-- Lines 398-410: one tool message per result, in result order. -/
def toolMessages (results : List InternalToolResult) : List Message :=
  results.map (fun r => Message.tool_result r.tool_call_id r.output)

/-- The maybe_summarize trigger (lines 477-486): strictly more than 20
messages and a multiple of 20. -/
def shouldSummarize (count : Nat) : Bool :=
  count > 20 ∧ count % 20 = 0

/-- The fixed sentinel returned when the loop produced no final text. -/
def maxIterationsSentinel : String :=
  "(Agent reached maximum tool iterations without a final response)"

/-- One run's outcome: the returned text, the live message list, the
session store's message list for this key, the number of LLM calls the
iteration loop made, and whether summarization was triggered. -/
structure LoopResult where
  final_content : String
  messages : List Message
  session : List Message
  llm_iterations : Nat
  summarize_triggered : Bool
deriving Repr

/-- The iteration loop (lines 227-411): fuel is the remaining
iterations, idx the current iteration index (selecting the completion
schedule of its batch). Returns (final_content, live messages, session
messages, LLM calls made). -/
def loopIter (provider : List Message → LLMResponse)
    (exec : String → List (String × Json) → ToolResult)
    (schedule : Nat → Nat → List (Nat ⊕ String)) :
    Nat → Nat → List Message → List Message → Nat →
    String × List Message × List Message × Nat
  | 0, _, msgs, sess, calls => ("", msgs, sess, calls)
  | Nat.succ fuel, idx, msgs, sess, calls =>
    let response := provider msgs
    if ¬ response.has_tool_calls then
      (response.content, msgs, sess ++ [Message.assistant response.content], calls + 1)
    else
      let tool_calls := response.tool_calls.getD []
      let amsg := Message.assistant_with_tool_calls response.content tool_calls
      let results := execute_tools exec tool_calls (schedule idx tool_calls.length)
      let tmsgs := toolMessages results
      loopIter provider exec schedule fuel (idx + 1)
        (msgs ++ amsg :: tmsgs) (sess ++ amsg :: tmsgs) (calls + 1)

/-- The prompt assembly of run_agent_loop (steps 1-2): system prompt,
summary system message when non-empty, history when enabled, then the
new user message. -/
def initialMessages (system_prompt summary : String) (history : List Message)
    (use_history : Bool) (user_message : String) : List Message :=
  Message.system system_prompt ::
    ((if ¬ (summary = "") then [Message.system ("Summary of earlier conversation:\n" ++ summary)] else []) ++
     (if use_history then history else []) ++ [Message.user user_message])

/-- AgentLoop::run_agent_loop for one session: the prompt assembly
(appending the user message to the session as well), the iteration
loop, the summarization check on the session's message count, and the
empty-final-content sentinel substitution. summarize_session itself is
represented only by its trigger. -/
def run_agent_loop (provider : List Message → LLMResponse)
    (exec : String → List (String × Json) → ToolResult)
    (schedule : Nat → Nat → List (Nat ⊕ String))
    (system_prompt summary : String) (history : List Message) (use_history : Bool)
    (user_message : String) (max_iterations : Nat) : LoopResult :=
  let msgs0 := initialMessages system_prompt summary history use_history user_message
  let sess0 := history ++ [Message.user user_message]
  let r := loopIter provider exec schedule max_iterations 0 msgs0 sess0 0
  { final_content := if r.fst = "" then maxIterationsSentinel else r.fst
    messages := r.snd.fst
    session := r.snd.snd.fst
    llm_iterations := r.snd.snd.snd
    summarize_triggered := shouldSummarize r.snd.snd.fst.length }

/-! ## Session store (src/session.rs)

A pure state: the in-memory cache and the on-disk files, both keyed
association lists (disk by sanitized file name). Background persistence
and timestamps are not modelled; the claims below concern the
synchronous cache/disk read paths. -/

structure SessionData where
  messages : List Message
  summary : String
deriving Repr

structure SessionStore where
  cache : List (String × SessionData)
  disk : List (String × SessionData)
deriving Repr

def lookupAssoc {α : Type} (l : List (String × α)) (k : String) : Option α :=
  (l.find? (fun p => p.fst == k)).map (fun p => p.snd)

def insertAssoc {α : Type} (l : List (String × α)) (k : String) (v : α) : List (String × α) :=
  if l.any (fun p => p.fst == k) then
    l.map (fun p => if p.fst == k then (k, v) else p)
  else l ++ [(k, v)]

/-- SessionManager::session_path: path-separator-like characters are
replaced and ".json" appended. -/
def session_path (key : String) : String :=
  String.mk (key.data.map (fun c => if c = '/' ∨ c = '\\' ∨ c = ':' ∨ c = '|' then '_' else c)) ++ ".json"

/-- SessionManager::get_summary: reads the cache only; a miss yields
the empty string (no disk load on this path). -/
def get_summary (st : SessionStore) (key : String) : String :=
  ((lookupAssoc st.cache key).map (fun s => s.summary)).getD ""

/-- SessionManager::get_messages: cache hit, else disk load (which
populates the cache), else empty. -/
def get_messages (st : SessionStore) (key : String) : List Message × SessionStore :=
  match lookupAssoc st.cache key with
  | some s => (s.messages, st)
  | none =>
    match lookupAssoc st.disk (session_path key) with
    | some d => (d.messages, { st with cache := insertAssoc st.cache key d })
    | none => ([], st)

/-! ## Parser evaluation lemmas

Characters that need no escaping inside a JSON string literal; a
token made of them appears verbatim between the quotes of a frame. -/

def jsonSafeChar (c : Char) : Prop := ¬ c = '"' ∧ ¬ c = '\\' ∧ 32 ≤ c.toNat

instance : DecidablePred jsonSafeChar := fun c => by
  unfold jsonSafeChar
  infer_instance

def jsonSafe (s : String) : Prop := ∀ c ∈ s.data, jsonSafeChar c

instance : DecidablePred jsonSafe := fun s => by
  unfold jsonSafe
  infer_instance

theorem psb_safe (s : List Char) (rest : List Char) (h : ∀ c ∈ s, jsonSafeChar c) :
    parseStringBody (s ++ '"' :: rest) = some (s, rest) := by
  induction s with
  | nil =>
    unfold parseStringBody
    simp
  | cons c cs ih =>
    obtain ⟨h1, h2, h3⟩ := h c (by simp)
    have hlt : ¬ (c.toNat < 32) := by
      omega
    rw [List.cons_append]
    unfold parseStringBody
    simp [h1, h2, hlt, ih (fun x hx => h x (by simp [hx]))]

theorem pf_val_quote (f : Nat) (r : List Char) :
    parseF (f + 1) PMode.val ('"' :: r) =
      (parseStringBody r).map (fun p => (Json.str (String.mk p.fst), p.snd)) := by
  conv_lhs => unfold parseF
  simp +decide only [skipWs, isJsonWs, if_false, if_true]

theorem pf_str_safe (f : Nat) (s rest : List Char) (h : ∀ c ∈ s, jsonSafeChar c) :
    parseF (f + 1) PMode.val ('"' :: (s ++ '"' :: rest)) = some (Json.str (String.mk s), rest) := by
  rw [pf_val_quote, psb_safe s rest h]
  rfl

theorem pf_val_lbrace_quote (f : Nat) (r : List Char) :
    parseF (f + 1) PMode.val ('{' :: '"' :: r) = parseF f PMode.members ('"' :: r) := by
  conv_lhs => unfold parseF
  simp +decide only [skipWs, isJsonWs, if_false, if_true]
  rfl

theorem pf_val_lbrack_lbrace (f : Nat) (r : List Char) :
    parseF (f + 1) PMode.val ('[' :: '{' :: r) = parseF f PMode.elems ('{' :: r) := by
  conv_lhs => unfold parseF
  simp +decide only [skipWs, isJsonWs, if_false, if_true]
  rfl

theorem pf_elems_unfold (f : Nat) (cs : List Char) :
    parseF (f + 1) PMode.elems cs =
      (match parseF f PMode.val cs with
       | some (v, r) =>
         (match skipWs r with
          | ',' :: r2 =>
            (match parseF f PMode.elems r2 with
             | some (Json.arr es, rest) => some (Json.arr (v :: es), rest)
             | _ => none)
          | ']' :: r2 => some (Json.arr [v], r2)
          | _ => none)
       | none => none) := by
  conv_lhs => unfold parseF

theorem pf_members_key (f : Nat) (k rest : List Char) (hk : ∀ c ∈ k, jsonSafeChar c) :
    parseF (f + 1) PMode.members ('"' :: (k ++ '"' :: ':' :: rest)) =
      (match parseF f PMode.val rest with
       | some (v, r3) =>
         (match skipWs r3 with
          | ',' :: r4 =>
            (match parseF f PMode.members r4 with
             | some (Json.obj ms, rest2) => some (Json.obj ((String.mk k, v) :: ms), rest2)
             | _ => none)
          | '}' :: r4 => some (Json.obj [(String.mk k, v)], r4)
          | _ => none)
       | none => none) := by
  conv_lhs => unfold parseF
  simp +decide only [skipWs, isJsonWs, if_false, if_true]
  rw [psb_safe k _ hk]
  simp +decide only [skipWs, isJsonWs, if_false, if_true]

/-- The parsed form of one streaming token frame carrying fragment t. -/
def tokenJson (t : List Char) : Json :=
  Json.obj [("choices", Json.arr [Json.obj [("delta", Json.obj [("content", Json.str (String.mk t))])]])]

theorem parse_token_frame (f : Nat) (t : List Char) (h : ∀ c ∈ t, jsonSafeChar c) :
    parseF (f + 9) PMode.val
      ('{':: '"':: 'c':: 'h':: 'o':: 'i':: 'c':: 'e':: 's':: '"':: ':':: '[':: '{':: '"':: 'd':: 'e':: 'l':: 't':: 'a':: '"':: ':':: '{':: '"':: 'c':: 'o':: 'n':: 't':: 'e':: 'n':: 't':: '"':: ':':: '"':: (t ++ '"':: '}':: '}':: ']':: '}'::[]))
      = some (tokenJson t, []) := by
  rw [show (f + 9) = (f + 8) + 1 from rfl]
  rw [pf_val_lbrace_quote]
  rw [show ('"':: 'c':: 'h':: 'o':: 'i':: 'c':: 'e':: 's':: '"':: ':':: '[':: '{':: '"':: 'd':: 'e':: 'l':: 't':: 'a':: '"':: ':':: '{':: '"':: 'c':: 'o':: 'n':: 't':: 'e':: 'n':: 't':: '"':: ':':: '"':: (t ++ '"':: '}':: '}':: ']':: '}'::[])) =
      ('"' :: (('c':: 'h':: 'o':: 'i':: 'c':: 'e':: 's'::[]) ++ '"' :: ':' :: ('[':: '{':: '"':: 'd':: 'e':: 'l':: 't':: 'a':: '"':: ':':: '{':: '"':: 'c':: 'o':: 'n':: 't':: 'e':: 'n':: 't':: '"':: ':':: '"':: (t ++ '"':: '}':: '}':: ']':: '}'::[])))) from rfl]
  rw [show (f + 8) = (f + 7) + 1 from rfl]
  rw [pf_members_key _ _ _ (by decide)]
  rw [show (f + 7) = (f + 6) + 1 from rfl]
  rw [pf_val_lbrack_lbrace]
  rw [show (f + 6) = (f + 5) + 1 from rfl]
  rw [pf_elems_unfold]
  rw [show (f + 5) = (f + 4) + 1 from rfl]
  rw [pf_val_lbrace_quote]
  rw [show ('"':: 'd':: 'e':: 'l':: 't':: 'a':: '"':: ':':: '{':: '"':: 'c':: 'o':: 'n':: 't':: 'e':: 'n':: 't':: '"':: ':':: '"':: (t ++ '"':: '}':: '}':: ']':: '}'::[])) =
      ('"' :: (('d':: 'e':: 'l':: 't':: 'a'::[]) ++ '"' :: ':' :: ('{':: '"':: 'c':: 'o':: 'n':: 't':: 'e':: 'n':: 't':: '"':: ':':: '"':: (t ++ '"':: '}':: '}':: ']':: '}'::[])))) from rfl]
  rw [show (f + 4) = (f + 3) + 1 from rfl]
  rw [pf_members_key _ _ _ (by decide)]
  rw [show (f + 3) = (f + 2) + 1 from rfl]
  rw [pf_val_lbrace_quote]
  rw [show ('"':: 'c':: 'o':: 'n':: 't':: 'e':: 'n':: 't':: '"':: ':':: '"':: (t ++ '"':: '}':: '}':: ']':: '}'::[])) =
      ('"' :: (('c':: 'o':: 'n':: 't':: 'e':: 'n':: 't'::[]) ++ '"' :: ':' :: ('"':: (t ++ '"':: '}':: '}':: ']':: '}'::[])))) from rfl]
  rw [show (f + 2) = (f + 1) + 1 from rfl]
  rw [pf_members_key _ _ _ (by decide)]
  rw [show ('"':: (t ++ '"':: '}':: '}':: ']':: '}'::[])) = ('"':: (t ++ '"'::('}':: '}':: ']':: '}'::[]))) from rfl]
  rw [pf_str_safe _ _ _ h]
  simp +decide only [skipWs, isJsonWs, if_false, if_true]
  rfl

/-! ## Line-level lemmas for synthetic SSE inputs -/

/-- One token frame of the OpenAI-compatible SSE wire format. -/
def tokenFrame (t : String) : String :=
  "data: \x7b\"choices\":[\x7b\"delta\":\x7b\"content\":\"" ++ t ++ "\"\x7d\x7d]\x7d\n"

def doneFrame : String := "data: [DONE]\n"

/-- The synthetic SSE document: token frames then the terminal marker. -/
def sseInput (ts : List String) : String :=
  String.join (ts.map tokenFrame) ++ doneFrame

def tlFront : List Char := "data: \x7b\"choices\":[\x7b\"delta\":\x7b\"content\":\"".data

def tlBack : List Char := "\"\x7d\x7d]\x7d".data

def tokenLineChars (t : List Char) : List Char := tlFront ++ (t ++ tlBack)

def doneLineChars : List Char := "data: [DONE]".data

theorem dropWsLeft_head (l : List Char) (c : Char) (h1 : l.head? = some c)
    (h2 : isJsonWs c = false) : dropWsLeft l = l := by
  cases l with
  | nil => rfl
  | cons a l' =>
    simp at h1
    subst h1
    unfold dropWsLeft
    simp [h2]

theorem trimChars_noop (l : List Char) (a b : Char) (h1 : l.head? = some a)
    (ha : isJsonWs a = false) (h2 : l.getLast? = some b) (hb : isJsonWs b = false) :
    trimChars l = l := by
  unfold trimChars
  rw [dropWsLeft_head l a h1 ha]
  rw [dropWsLeft_head l.reverse b (by rw [List.head?_reverse]; exact h2) hb]
  exact List.reverse_reverse l

theorem dropLeading_append (p r : List Char) : dropLeading p (p ++ r) = some r := by
  induction p with
  | nil => rfl
  | cons c p' ih =>
    unfold dropLeading
    simp [ih]

theorem tokenLineChars_head (t : List Char) : (tokenLineChars t).head? = some 'd' := by
  unfold tokenLineChars
  rw [List.head?_append_of_ne_nil tlFront (by decide)]
  decide

theorem tokenLineChars_last (t : List Char) : (tokenLineChars t).getLast? = some '}' := by
  unfold tokenLineChars
  rw [List.getLast?_append]
  rw [List.getLast?_append]
  rfl

theorem newline_not_mem_tokenLine (t : List Char) (h : ∀ c ∈ t, jsonSafeChar c) :
    ¬ '\n' ∈ tokenLineChars t := by
  unfold tokenLineChars
  intro hmem
  rcases List.mem_append.mp hmem with h1 | h2
  · revert h1
    decide
  · rcases List.mem_append.mp h2 with h3 | h4
    · exact absurd (h _ h3).2.2 (by decide)
    · revert h4
      decide

/-- processDataJson on a parsed token frame: the fragment is appended
to the text and forwarded as one Token event. -/
theorem processDataJson_token (st : SseState) (t : List Char) (hne : t ≠ []) :
    processDataJson st (tokenJson t) =
      ({ st with full_content := st.full_content ++ String.mk t },
       [StreamEvent.token (String.mk t)]) := by
  have hne' : ¬ (String.mk t = "") := by
    intro hmk
    exact hne (congrArg String.data hmk)
  simp +decide [processDataJson, deltaStage, tokenJson, Json.getKey, Json.getIdx, Json.asStr,
    Json.asArr, extractToolDeltas, stepToolDeltas, hne']

def jlFront : List Char := "\x7b\"choices\":[\x7b\"delta\":\x7b\"content\":\"".data

def jsonLineChars (t : List Char) : List Char := jlFront ++ (t ++ tlBack)

theorem jsonLineChars_head (t : List Char) : (jsonLineChars t).head? = some '{' := by
  unfold jsonLineChars
  rw [List.head?_append_of_ne_nil jlFront (by decide)]
  decide

theorem jsonLineChars_last (t : List Char) : (jsonLineChars t).getLast? = some '}' := by
  unfold jsonLineChars
  rw [List.getLast?_append]
  rw [List.getLast?_append]
  rfl

/-- The payload of a token frame through processData. -/
theorem processData_token (st : SseState) (t : List Char)
    (hs : ∀ c ∈ t, jsonSafeChar c) (hne : t ≠ []) :
    processData st (jsonLineChars t) =
      LineResult.cont { st with full_content := st.full_content ++ String.mk t }
        [StreamEvent.token (String.mk t)] := by
  have hnodone : ¬ (jsonLineChars t = "[DONE]".data) := by
    intro h
    have h2 := congrArg List.head? h
    rw [jsonLineChars_head] at h2
    revert h2
    decide
  unfold processData
  rw [trimChars_noop _ '{' '}' (jsonLineChars_head t) (by decide) (jsonLineChars_last t) (by decide)]
  rw [if_neg hnodone]
  rw [show (1000 : Nat) = 991 + 9 from rfl]
  rw [show jsonLineChars t =
      ('{':: '"':: 'c':: 'h':: 'o':: 'i':: 'c':: 'e':: 's':: '"':: ':':: '[':: '{':: '"':: 'd':: 'e':: 'l':: 't':: 'a':: '"':: ':':: '{':: '"':: 'c':: 'o':: 'n':: 't':: 'e':: 'n':: 't':: '"':: ':':: '"':: (t ++ '"':: '}':: '}':: ']':: '}'::[])) from rfl]
  rw [parse_token_frame 991 t hs]
  show (let r := processDataJson st (tokenJson t); LineResult.cont r.fst r.snd) = _
  simp only [processDataJson_token st t hne]

/-- One token line through processLine. -/
theorem processLine_token (st : SseState) (t : List Char)
    (hs : ∀ c ∈ t, jsonSafeChar c) (hne : t ≠ []) :
    processLine st (trimChars (tokenLineChars t)) =
      LineResult.cont { st with full_content := st.full_content ++ String.mk t }
        [StreamEvent.token (String.mk t)] := by
  rw [trimChars_noop _ 'd' '}' (tokenLineChars_head t) (by decide) (tokenLineChars_last t) (by decide)]
  unfold processLine
  rw [if_neg (by
    rw [tokenLineChars_head]
    rw [show (tokenLineChars t).isEmpty = false from by
      unfold tokenLineChars tlFront
      rfl]
    simp)]
  rw [show tokenLineChars t = "data: ".data ++ jsonLineChars t from rfl]
  rw [dropLeading_append]
  exact processData_token st t hs hne

/-- The [DONE] line through processLine. -/
theorem processLine_done (st : SseState) :
    processLine st (trimChars doneLineChars) =
      LineResult.finished [StreamEvent.done (buildResponse st)] := by
  rw [show trimChars doneLineChars = doneLineChars from by decide]
  unfold processLine
  rw [if_neg (by decide)]
  rw [show doneLineChars = "data: ".data ++ "[DONE]".data from rfl]
  rw [dropLeading_append]
  show processData st ("[DONE]".data) = _
  unfold processData
  rw [show trimChars ("[DONE]".data) = "[DONE]".data from by decide]
  rw [if_pos rfl]

theorem splitLines_line (l rest : List Char) (h : ¬ '\n' ∈ l) :
    splitLines (l ++ '\n' :: rest) = (l :: (splitLines rest).fst, (splitLines rest).snd) := by
  induction l with
  | nil =>
    rw [List.nil_append]
    conv_lhs => unfold splitLines
    simp
  | cons c l' ih =>
    have hc : ¬ (c = '\n') := by
      intro hc
      exact h (by simp [hc])
    rw [List.cons_append]
    conv_lhs => unfold splitLines
    rw [ih (fun hm => h (by simp [hm]))]
    simp [hc]

theorem splitLines_joined (lines : List (List Char)) (h : ∀ l ∈ lines, ¬ '\n' ∈ l) :
    splitLines ((lines.map (fun l => l ++ ['\n'])).flatten) = (lines, []) := by
  induction lines with
  | nil => rfl
  | cons l ls ih =>
    rw [List.map_cons, List.flatten_cons]
    rw [List.append_assoc]
    rw [show (['\n'] ++ (ls.map (fun l => l ++ ['\n'])).flatten) = '\n' :: (ls.map (fun l => l ++ ['\n'])).flatten from rfl]
    rw [splitLines_line _ _ (h l (by simp))]
    rw [ih (fun x hx => h x (by simp [hx]))]

theorem string_join_data (l : List String) :
    (String.join l).data = (l.map String.data).flatten := by
  have main : ∀ (l : List String) (acc : String),
      (l.foldl (fun r s => r ++ s) acc).data = acc.data ++ (l.map String.data).flatten := by
    intro l
    induction l with
    | nil =>
      intro acc
      simp
    | cons s ls ih =>
      intro acc
      rw [List.foldl_cons, ih, String.data_append]
      simp
  exact main l ""

theorem processLines_token_frames (ts : List (List Char)) :
    ∀ st : SseState, (∀ t ∈ ts, (∀ c ∈ t, jsonSafeChar c) ∧ t ≠ []) →
    processLines st ((ts.map (fun t => tokenLineChars t)) ++ [doneLineChars]) =
      BufOutcome.finished ((ts.map (fun t => StreamEvent.token (String.mk t))) ++
        [StreamEvent.done (buildResponse { st with full_content := st.full_content ++ String.mk ts.flatten })]) := by
  induction ts with
  | nil =>
    intro st _
    show processLines st [doneLineChars] = _
    unfold processLines
    rw [processLine_done]
    have : st.full_content ++ String.mk [] = st.full_content := by
      apply String.ext
      simp [String.data_append]
    simp [this]
  | cons t ts ih =>
    intro st h
    rw [List.map_cons, List.cons_append]
    have step : processLines st
        (tokenLineChars t :: ((ts.map (fun t => tokenLineChars t)) ++ [doneLineChars])) =
        (match processLine st (trimChars (tokenLineChars t)) with
         | .finished evs => BufOutcome.finished evs
         | .cont st' evs =>
           (match processLines st' ((ts.map (fun t => tokenLineChars t)) ++ [doneLineChars]) with
            | .finished evs2 => BufOutcome.finished (evs ++ evs2)
            | .cont st2 evs2 => BufOutcome.cont st2 (evs ++ evs2))) := rfl
    rw [step]
    rw [processLine_token st t (h t (by simp)).1 (h t (by simp)).2]
    have ih' := fun st2 : SseState => ih st2 (fun x hx => h x (by simp [hx]))
    simp only [ih']
    have hfc : (st.full_content ++ String.mk t) ++ String.mk ts.flatten =
        st.full_content ++ String.mk (t :: ts).flatten := by
      apply String.ext
      simp [String.data_append]
    simp [hfc]

theorem tokenFrame_data (t : String) :
    (tokenFrame t).data = tokenLineChars t.data ++ ['\n'] := by
  unfold tokenFrame tokenLineChars tlFront tlBack
  rw [String.data_append, String.data_append]
  simp

/-- C6's amended core: a synthetic SSE input of non-empty, escape-free
token frames followed by the terminal marker produces exactly the
Token events in order and one final Done whose content is the
concatenation. -/
theorem sse_token_stream (ts : List String)
    (hsafe : ∀ t ∈ ts, jsonSafe t) (hne : ∀ t ∈ ts, ¬ t = "") :
    processSseStream [Except.ok (sseInput ts)] =
      (ts.map StreamEvent.token) ++
      [StreamEvent.done { content := String.join ts, tool_calls := none,
                          finish_reason := "stop", usage := none }] := by
  have hlines : (sseInput ts).data =
      (((ts.map (fun t => tokenLineChars t.data)) ++ [doneLineChars]).map (fun l => l ++ ['\n'])).flatten := by
    unfold sseInput
    rw [String.data_append, string_join_data]
    rw [List.map_append, List.flatten_append]
    rw [List.map_map, List.map_map]
    have h1 : List.map (String.data ∘ tokenFrame) ts =
        List.map ((fun l => l ++ ['\n']) ∘ fun t => tokenLineChars t.data) ts := by
      apply List.map_congr_left
      intro t _
      show (tokenFrame t).data = tokenLineChars t.data ++ ['\n']
      exact tokenFrame_data t
    rw [h1]
    rfl
  have hsplit : splitLines ((([] : List Char) ++ (sseInput ts).data)) =
      ((ts.map (fun t => tokenLineChars t.data)) ++ [doneLineChars], []) := by
    rw [List.nil_append, hlines]
    apply splitLines_joined
    intro l hl
    rcases List.mem_append.mp hl with h1 | h2
    · obtain ⟨t, ht, rfl⟩ := List.mem_map.mp h1
      exact newline_not_mem_tokenLine t.data (hsafe t ht)
    · simp at h2
      subst h2
      decide
  show (match processLines initialSseState
        (splitLines (([] : List Char) ++ (sseInput ts).data)).fst with
      | BufOutcome.finished evs => evs
      | BufOutcome.cont st' evs => evs ++ processChunks st' (splitLines (([] : List Char) ++ (sseInput ts).data)).snd []) = _
  rw [hsplit]
  show (match processLines initialSseState
        ((ts.map (fun t => tokenLineChars t.data)) ++ [doneLineChars]) with
      | BufOutcome.finished evs => evs
      | BufOutcome.cont st' evs => evs ++ processChunks st' [] []) = _
  rw [show (ts.map (fun t => tokenLineChars t.data)) = ((ts.map String.data).map (fun t => tokenLineChars t)) from by
    rw [List.map_map]
    exact List.map_congr_left (fun t _ => rfl)]
  rw [processLines_token_frames _ initialSseState (by
    intro t ht
    obtain ⟨s, hs, rfl⟩ := List.mem_map.mp ht
    refine ⟨hsafe s hs, ?_⟩
    intro hnil
    exact (hne s hs) (String.ext hnil))]
  have hjoin : String.mk ((ts.map String.data).flatten) = String.join ts := by
    apply String.ext
    rw [string_join_data]
  have hmapmap : (ts.map String.data).map (fun t => StreamEvent.token (String.mk t)) =
      ts.map StreamEvent.token := by
    rw [List.map_map]
    apply List.map_congr_left
    intro t _
    rfl
  simp only [hmapmap]
  show (ts.map StreamEvent.token) ++
      [StreamEvent.done (buildResponse { initialSseState with
        full_content := initialSseState.full_content ++ String.mk ((ts.map String.data).flatten) })] = _
  rw [hjoin]
  rfl

/-! ## Shape of an arbitrary SSE event sequence (claim C3) -/

def isTerminal : StreamEvent → Bool
  | .done _ => true
  | .error _ => true
  | _ => false

/-- The texts of the Token events, in order. -/
def tokenTexts (evs : List StreamEvent) : List String :=
  evs.filterMap (fun e => match e with | .token t => some t | _ => none)

/-- The only ways an emitted event sequence can end. -/
inductive TailShape : List StreamEvent → Prop where
  | nil : TailShape []
  | doneT (r : LLMResponse) : TailShape [StreamEvent.done r]
  | errT (m : String) : TailShape [StreamEvent.error m]
  | errDoneT (m : String) (r : LLMResponse) : TailShape [StreamEvent.error m, StreamEvent.done r]

def chunkIsOk : Except String String → Bool
  | .ok _ => true
  | .error _ => false

theorem string_append_empty (s : String) : s ++ "" = s := by
  apply String.ext
  rw [String.data_append]
  simp [show ("" : String).data = [] from rfl]

theorem string_join_append (a b : List String) :
    String.join (a ++ b) = String.join a ++ String.join b := by
  apply String.ext
  rw [String.data_append, string_join_data, string_join_data, string_join_data]
  rw [List.map_append, List.flatten_append]

theorem tokenTexts_append (a b : List StreamEvent) :
    tokenTexts (a ++ b) = tokenTexts a ++ tokenTexts b := by
  unfold tokenTexts
  exact List.filterMap_append _ _ _

theorem stepToolDeltas_shape (ds : List (Nat × Option String × Option String × String)) :
    ∀ st : SseState,
      (stepToolDeltas st ds).snd =
        ds.map (fun d => StreamEvent.toolCallDelta d.fst d.snd.fst d.snd.snd.fst d.snd.snd.snd) ∧
      (stepToolDeltas st ds).fst.full_content = st.full_content := by
  induction ds with
  | nil =>
    intro st
    exact ⟨rfl, rfl⟩
  | cons d ds ih =>
    intro st
    obtain ⟨d1, d2, d3, d4⟩ := d
    unfold stepToolDeltas
    constructor
    · simp [(ih _).1]
    · simp [(ih _).2]

/-- What one line's outcome guarantees, relative to the entry state. -/
def LineOk (st : SseState) : LineResult → Prop
  | .cont st' evs =>
    (∀ e ∈ evs, isTerminal e = false) ∧
    st'.full_content = st.full_content ++ String.join (tokenTexts evs) ∧
    (∀ x ∈ tokenTexts evs, ¬ x = "")
  | .finished evs => evs = [StreamEvent.done (buildResponse st)]

theorem tokenTexts_deltas (ds : List (Nat × Option String × Option String × String))
    (st : SseState) : tokenTexts ((stepToolDeltas st ds).snd) = [] := by
  rw [(stepToolDeltas_shape ds st).1]
  unfold tokenTexts
  rw [List.filterMap_map]
  apply List.filterMap_eq_nil_iff.mpr
  intro d _
  rfl

theorem nonterm_deltas (ds : List (Nat × Option String × Option String × String))
    (st : SseState) : ∀ e ∈ (stepToolDeltas st ds).snd, isTerminal e = false := by
  intro e he
  rw [(stepToolDeltas_shape ds st).1] at he
  obtain ⟨d, _, rfl⟩ := List.mem_map.mp he
  rfl

theorem deltaCombine (st st0 : SseState) (evs0 : List StreamEvent)
    (ds : List (Nat × Option String × Option String × String))
    (h1 : ∀ e ∈ evs0, isTerminal e = false)
    (h2 : st0.full_content = st.full_content ++ String.join (tokenTexts evs0))
    (h3 : ∀ x ∈ tokenTexts evs0, ¬ x = "") :
    (∀ e ∈ evs0 ++ (stepToolDeltas st0 ds).snd, isTerminal e = false) ∧
    (stepToolDeltas st0 ds).fst.full_content =
      st.full_content ++ String.join (tokenTexts (evs0 ++ (stepToolDeltas st0 ds).snd)) ∧
    (∀ x ∈ tokenTexts (evs0 ++ (stepToolDeltas st0 ds).snd), ¬ x = "") := by
  refine ⟨?_, ?_, ?_⟩
  · intro e he
    rcases List.mem_append.mp he with h | h
    · exact h1 e h
    · exact nonterm_deltas ds st0 e h
  · rw [(stepToolDeltas_shape ds st0).2, h2, tokenTexts_append, tokenTexts_deltas,
      List.append_nil]
  · intro x hx
    rw [tokenTexts_append, tokenTexts_deltas, List.append_nil] at hx
    exact h3 x hx

theorem deltaStage_ok (st : SseState) (delta : Json) :
    (∀ e ∈ (deltaStage st delta).snd, isTerminal e = false) ∧
    (deltaStage st delta).fst.full_content =
      st.full_content ++ String.join (tokenTexts (deltaStage st delta).snd) ∧
    (∀ x ∈ tokenTexts (deltaStage st delta).snd, ¬ x = "") := by
  unfold deltaStage
  rcases hct : (delta.getKey "content").bind Json.asStr with _ | c
  · simp only [hct]
    exact deltaCombine st st [] _ (by simp) (string_append_empty _).symm (by simp [tokenTexts])
  · by_cases hc : c = ""
    · subst hc
      simp only [hct, if_neg (show ¬ ¬ ("" : String) = "" from fun h => h rfl)]
      exact deltaCombine st st [] _ (by simp) (string_append_empty _).symm (by simp [tokenTexts])
    · simp only [hct, if_pos hc]
      refine deltaCombine st _ [StreamEvent.token c] _ ?_ ?_ ?_
      · intro e he
        simp at he
        subst he
        rfl
      · rfl
      · intro x hx
        simp [tokenTexts] at hx
        subst hx
        exact hc

theorem processDataJson_ok (st : SseState) (v : Json) :
    (∀ e ∈ (processDataJson st v).snd, isTerminal e = false) ∧
    (processDataJson st v).fst.full_content =
      st.full_content ++ String.join (tokenTexts (processDataJson st v).snd) ∧
    (∀ x ∈ tokenTexts (processDataJson st v).snd, ¬ x = "") := by
  unfold processDataJson
  have hgen : ∀ st2 : SseState, st2.full_content = st.full_content →
      (∀ e ∈ (match ((v.getKey "choices").bind (Json.getIdx 0)).bind (fun c => c.getKey "delta") with
              | none => (st2, ([] : List StreamEvent))
              | some delta => deltaStage st2 delta).snd, isTerminal e = false) ∧
      (match ((v.getKey "choices").bind (Json.getIdx 0)).bind (fun c => c.getKey "delta") with
       | none => (st2, ([] : List StreamEvent))
       | some delta => deltaStage st2 delta).fst.full_content =
        st.full_content ++ String.join (tokenTexts
          (match ((v.getKey "choices").bind (Json.getIdx 0)).bind (fun c => c.getKey "delta") with
           | none => (st2, ([] : List StreamEvent))
           | some delta => deltaStage st2 delta).snd) ∧
      (∀ x ∈ tokenTexts (match ((v.getKey "choices").bind (Json.getIdx 0)).bind (fun c => c.getKey "delta") with
              | none => (st2, ([] : List StreamEvent))
              | some delta => deltaStage st2 delta).snd, ¬ x = "") := by
    intro st2 hfc2
    rcases ((v.getKey "choices").bind (Json.getIdx 0)).bind (fun c => c.getKey "delta") with _ | delta
    · refine ⟨by simp, ?_, by simp [tokenTexts]⟩
      show st2.full_content = st.full_content ++ String.join (tokenTexts [])
      rw [hfc2]
      exact (string_append_empty _).symm
    · obtain ⟨d1, d2, d3⟩ := deltaStage_ok st2 delta
      exact ⟨d1, by rw [d2, hfc2], d3⟩
  rcases hfr : (((v.getKey "choices").bind (Json.getIdx 0)).bind
      (fun c => c.getKey "finish_reason")).bind Json.asStr with _ | fr <;>
    rcases hus : v.getKey "usage" with _ | u <;>
    simp only [hfr, hus] <;>
    exact hgen _ rfl

/-- Every line outcome is well-shaped. -/
theorem processData_ok (st : SseState) (d : List Char) : LineOk st (processData st d) := by
  unfold processData
  by_cases hdone : trimChars d = "[DONE]".data
  · rw [if_pos hdone]
    rfl
  · rw [if_neg hdone]
    rcases hp : parseF 1000 PMode.val (trimChars d) with _ | p
    · exact ⟨by simp, (string_append_empty _).symm, by simp [tokenTexts]⟩
    · obtain ⟨v, rest⟩ := p
      show LineOk st (if skipWs rest = [] then
          (let r := processDataJson st v; LineResult.cont r.fst r.snd)
        else LineResult.cont st [])
      by_cases hr : skipWs rest = []
      · rw [if_pos hr]
        exact processDataJson_ok st v
      · rw [if_neg hr]
        exact ⟨by simp, (string_append_empty _).symm, by simp [tokenTexts]⟩

theorem processLine_ok (st : SseState) (l : List Char) : LineOk st (processLine st l) := by
  unfold processLine
  by_cases h1 : l.isEmpty ∨ l.head? = some ':'
  · rw [if_pos h1]
    exact ⟨by simp, (string_append_empty _).symm, by simp [tokenTexts]⟩
  · rw [if_neg h1]
    rcases dropLeading ("data: ".data) l with _ | d
    · exact ⟨by simp, (string_append_empty _).symm, by simp [tokenTexts]⟩
    · exact processData_ok st d

/-- What one buffer drain guarantees, relative to the entry state. -/
def BufOk (st : SseState) : BufOutcome → Prop
  | .cont st' evs =>
    (∀ e ∈ evs, isTerminal e = false) ∧
    st'.full_content = st.full_content ++ String.join (tokenTexts evs) ∧
    (∀ x ∈ tokenTexts evs, ¬ x = "")
  | .finished evs =>
    ∃ evs0 r, evs = evs0 ++ [StreamEvent.done r] ∧
      (∀ e ∈ evs0, isTerminal e = false) ∧
      r.content = st.full_content ++ String.join (tokenTexts evs0) ∧
      (∀ x ∈ tokenTexts evs0, ¬ x = "")

theorem processLines_ok (ls : List (List Char)) :
    ∀ st : SseState, BufOk st (processLines st ls) := by
  induction ls with
  | nil =>
    intro st
    exact ⟨by simp, (string_append_empty _).symm, by simp [tokenTexts]⟩
  | cons l ls ih =>
    intro st
    have hstep : processLines st (l :: ls) =
        (match processLine st (trimChars l) with
         | .finished evs => BufOutcome.finished evs
         | .cont st' evs =>
           (match processLines st' ls with
            | .finished evs2 => BufOutcome.finished (evs ++ evs2)
            | .cont st2 evs2 => BufOutcome.cont st2 (evs ++ evs2))) := rfl
    rw [hstep]
    have hline := processLine_ok st (trimChars l)
    cases hL : processLine st (trimChars l) with
    | cont st1 evs1 =>
      rw [hL] at hline
      obtain ⟨n1, f1, t1⟩ := hline
      have hrec := ih st1
      show BufOk st (match processLines st1 ls with
        | BufOutcome.finished evs2 => BufOutcome.finished (evs1 ++ evs2)
        | BufOutcome.cont st2 evs2 => BufOutcome.cont st2 (evs1 ++ evs2))
      cases hR : processLines st1 ls with
      | cont st2 evs2 =>
        rw [hR] at hrec
        obtain ⟨n2, f2, t2⟩ := hrec
        show (∀ e ∈ evs1 ++ evs2, isTerminal e = false) ∧
          st2.full_content = st.full_content ++ String.join (tokenTexts (evs1 ++ evs2)) ∧
          (∀ x ∈ tokenTexts (evs1 ++ evs2), ¬ x = "")
        refine ⟨?_, ?_, ?_⟩
        · intro e he
          rcases List.mem_append.mp he with h | h
          · exact n1 e h
          · exact n2 e h
        · rw [f2, f1, tokenTexts_append, string_join_append, String.append_assoc]
        · intro x hx
          rw [tokenTexts_append] at hx
          rcases List.mem_append.mp hx with h | h
          · exact t1 x h
          · exact t2 x h
      | finished evs2 =>
        rw [hR] at hrec
        obtain ⟨evs0, r, heq, n2, f2, t2⟩ := hrec
        subst heq
        show ∃ evs0' r', evs1 ++ (evs0 ++ [StreamEvent.done r]) = evs0' ++ [StreamEvent.done r'] ∧
          (∀ e ∈ evs0', isTerminal e = false) ∧
          r'.content = st.full_content ++ String.join (tokenTexts evs0') ∧
          (∀ x ∈ tokenTexts evs0', ¬ x = "")
        refine ⟨evs1 ++ evs0, r, by rw [List.append_assoc], ?_, ?_, ?_⟩
        · intro e he
          rcases List.mem_append.mp he with h | h
          · exact n1 e h
          · exact n2 e h
        · rw [f2, f1, tokenTexts_append, string_join_append, String.append_assoc]
        · intro x hx
          rw [tokenTexts_append] at hx
          rcases List.mem_append.mp hx with h | h
          · exact t1 x h
          · exact t2 x h
    | finished evs1 =>
      rw [hL] at hline
      have heq : evs1 = [StreamEvent.done (buildResponse st)] := hline
      subst heq
      show ∃ evs0 r, [StreamEvent.done (buildResponse st)] = evs0 ++ [StreamEvent.done r] ∧
        (∀ e ∈ evs0, isTerminal e = false) ∧
        r.content = st.full_content ++ String.join (tokenTexts evs0) ∧
        (∀ x ∈ tokenTexts evs0, ¬ x = "")
      refine ⟨[], buildResponse st, rfl, by simp, ?_, by simp [tokenTexts]⟩
      show st.full_content = st.full_content ++ String.join (tokenTexts [])
      exact (string_append_empty _).symm

/-- Whether any tool-call delta event occurs in a sequence. -/
def hasToolDelta (evs : List StreamEvent) : Bool :=
  evs.any (fun e => match e with | StreamEvent.toolCallDelta _ _ _ _ => true | _ => false)

theorem hasToolDelta_append (a b : List StreamEvent) :
    hasToolDelta (a ++ b) = (hasToolDelta a || hasToolDelta b) := by
  unfold hasToolDelta
  exact List.any_append

/-- One fragment mutation never empties the accumulator. -/
theorem accStep_ne_empty (acc : List (Nat × ToolAccEntry)) (index : Nat)
    (id name : Option String) (args : String) :
    (accStep acc index id name args).isEmpty = false := by
  unfold accStep
  cases acc with
  | nil =>
    rw [if_neg (by simp)]
    rfl
  | cons p ps =>
    by_cases h : (p :: ps).any (fun q => q.fst == index)
    · rw [if_pos h]
      rfl
    · rw [if_neg h]
      simp

theorem accStep_foldl_ne (ds : List (Nat × Option String × Option String × String)) :
    ∀ a : List (Nat × ToolAccEntry), ¬ ds = [] →
      (ds.foldl (fun a d => accStep a d.fst d.snd.fst d.snd.snd.fst d.snd.snd.snd) a).isEmpty = false := by
  induction ds with
  | nil =>
    intro a h
    exact absurd rfl h
  | cons d ds ih =>
    intro a _
    by_cases hds : ds = []
    · subst hds
      rw [List.foldl_cons]
      show (accStep a d.fst d.snd.fst d.snd.snd.fst d.snd.snd.snd).isEmpty = false
      exact accStep_ne_empty _ _ _ _ _
    · rw [List.foldl_cons]
      exact ih _ hds

theorem stepToolDeltas_acc (ds : List (Nat × Option String × Option String × String)) :
    ∀ st : SseState, (stepToolDeltas st ds).fst.tool_calls_acc =
      ds.foldl (fun a d => accStep a d.fst d.snd.fst d.snd.snd.fst d.snd.snd.snd)
        st.tool_calls_acc := by
  induction ds with
  | nil =>
    intro st
    rfl
  | cons d ds ih =>
    intro st
    obtain ⟨d1, d2, d3, d4⟩ := d
    rw [List.foldl_cons]
    exact ih _

/-- An empty accumulator after the fragment fold means no fragment was
processed (and none was emitted). -/
theorem stepToolDeltas_acc_empty (ds : List (Nat × Option String × Option String × String))
    (st : SseState)
    (h : (stepToolDeltas st ds).fst.tool_calls_acc.isEmpty = true) :
    st.tool_calls_acc.isEmpty = true ∧ ds = [] := by
  rw [stepToolDeltas_acc] at h
  by_cases hds : ds = []
  · subst hds
    exact ⟨h, rfl⟩
  · rw [accStep_foldl_ne ds st.tool_calls_acc hds] at h
    exact absurd h (by simp)

theorem deltaStage_acc (st : SseState) (delta : Json) :
    (deltaStage st delta).fst.tool_calls_acc.isEmpty = true →
    st.tool_calls_acc.isEmpty = true ∧ hasToolDelta (deltaStage st delta).snd = false := by
  unfold deltaStage
  rcases hct : (delta.getKey "content").bind Json.asStr with _ | c
  · simp only [hct]
    intro h
    obtain ⟨h1, h2⟩ := stepToolDeltas_acc_empty (extractToolDeltas delta) st (by exact h)
    refine ⟨by exact h1, ?_⟩
    rw [h2]
    rfl
  · by_cases hc : c = ""
    · subst hc
      simp only [hct, if_neg (show ¬ ¬ ("" : String) = "" from fun h => h rfl)]
      intro h
      obtain ⟨h1, h2⟩ := stepToolDeltas_acc_empty (extractToolDeltas delta) st (by exact h)
      refine ⟨by exact h1, ?_⟩
      rw [h2]
      rfl
    · simp only [hct, if_pos hc]
      intro h
      obtain ⟨h1, h2⟩ := stepToolDeltas_acc_empty (extractToolDeltas delta)
        { st with full_content := st.full_content ++ c } (by exact h)
      refine ⟨by exact h1, ?_⟩
      rw [h2]
      rfl

theorem processDataJson_acc (st : SseState) (v : Json) :
    (processDataJson st v).fst.tool_calls_acc.isEmpty = true →
    st.tool_calls_acc.isEmpty = true ∧ hasToolDelta (processDataJson st v).snd = false := by
  unfold processDataJson
  have hgen : ∀ st2 : SseState, st2.tool_calls_acc = st.tool_calls_acc →
      (match ((v.getKey "choices").bind (Json.getIdx 0)).bind (fun c => c.getKey "delta") with
       | none => (st2, ([] : List StreamEvent))
       | some delta => deltaStage st2 delta).fst.tool_calls_acc.isEmpty = true →
      st.tool_calls_acc.isEmpty = true ∧
      hasToolDelta (match ((v.getKey "choices").bind (Json.getIdx 0)).bind (fun c => c.getKey "delta") with
       | none => (st2, ([] : List StreamEvent))
       | some delta => deltaStage st2 delta).snd = false := by
    intro st2 hacc2
    rcases ((v.getKey "choices").bind (Json.getIdx 0)).bind (fun c => c.getKey "delta") with _ | delta
    · intro h
      refine ⟨?_, rfl⟩
      rw [← hacc2]
      exact h
    · intro h
      obtain ⟨h1, h2⟩ := deltaStage_acc st2 delta h
      refine ⟨?_, h2⟩
      rw [← hacc2]
      exact h1
  rcases hfr : (((v.getKey "choices").bind (Json.getIdx 0)).bind
      (fun c => c.getKey "finish_reason")).bind Json.asStr with _ | fr <;>
    rcases hus : v.getKey "usage" with _ | u <;>
    simp only [hfr, hus] <;>
    exact hgen _ rfl

/-- What one line's outcome guarantees about the fragment accumulator:
when it ends empty, it started empty and no delta event was emitted. -/
def AccLine (st : SseState) : LineResult → Prop
  | .cont st' evs => st'.tool_calls_acc.isEmpty = true →
      st.tool_calls_acc.isEmpty = true ∧ hasToolDelta evs = false
  | .finished _ => True

theorem processData_acc (st : SseState) (d : List Char) : AccLine st (processData st d) := by
  unfold processData
  by_cases hdone : trimChars d = "[DONE]".data
  · rw [if_pos hdone]
    trivial
  · rw [if_neg hdone]
    rcases hp : parseF 1000 PMode.val (trimChars d) with _ | p
    · exact fun h => ⟨h, rfl⟩
    · obtain ⟨v, rest⟩ := p
      show AccLine st (if skipWs rest = [] then
          (let r := processDataJson st v; LineResult.cont r.fst r.snd)
        else LineResult.cont st [])
      by_cases hr : skipWs rest = []
      · rw [if_pos hr]
        exact fun h => processDataJson_acc st v h
      · rw [if_neg hr]
        exact fun h => ⟨h, rfl⟩

theorem processLine_acc (st : SseState) (l : List Char) : AccLine st (processLine st l) := by
  unfold processLine
  by_cases h1 : l.isEmpty ∨ l.head? = some ':'
  · rw [if_pos h1]
    exact fun h => ⟨h, rfl⟩
  · rw [if_neg h1]
    rcases dropLeading ("data: ".data) l with _ | d
    · exact fun h => ⟨h, rfl⟩
    · exact processData_acc st d

def AccBuf (st : SseState) : BufOutcome → Prop
  | .cont st' evs => st'.tool_calls_acc.isEmpty = true →
      st.tool_calls_acc.isEmpty = true ∧ hasToolDelta evs = false
  | .finished _ => True

theorem processLines_acc (ls : List (List Char)) :
    ∀ st : SseState, AccBuf st (processLines st ls) := by
  induction ls with
  | nil =>
    intro st
    exact fun h => ⟨h, rfl⟩
  | cons l ls ih =>
    intro st
    have hstep : processLines st (l :: ls) =
        (match processLine st (trimChars l) with
         | .finished evs => BufOutcome.finished evs
         | .cont st' evs =>
           (match processLines st' ls with
            | .finished evs2 => BufOutcome.finished (evs ++ evs2)
            | .cont st2 evs2 => BufOutcome.cont st2 (evs ++ evs2))) := rfl
    rw [hstep]
    have hline := processLine_acc st (trimChars l)
    cases hL : processLine st (trimChars l) with
    | cont st1 evs1 =>
      rw [hL] at hline
      have hrec := ih st1
      show AccBuf st (match processLines st1 ls with
        | BufOutcome.finished evs2 => BufOutcome.finished (evs1 ++ evs2)
        | BufOutcome.cont st2 evs2 => BufOutcome.cont st2 (evs1 ++ evs2))
      cases hR : processLines st1 ls with
      | cont st2 evs2 =>
        rw [hR] at hrec
        intro h
        obtain ⟨h1, h2⟩ := hrec h
        obtain ⟨h3, h4⟩ := hline h1
        refine ⟨h3, ?_⟩
        rw [hasToolDelta_append, h4, h2]
        rfl
      | finished evs2 =>
        rw [hR] at hrec
        trivial
    | finished evs1 =>
      rw [hL] at hline
      trivial

/-- The flush cannot emit tokens, and TailShape tails never hold Token
events. -/
theorem tokenTexts_tailShape (tail : List StreamEvent) (h : TailShape tail) :
    tokenTexts tail = [] := by
  cases h <;> rfl

/-- The central structure theorem over an arbitrary chunk sequence. -/
theorem processChunks_ok (chunks : List (Except String String)) :
    ∀ (st : SseState) (buf : List Char), ∃ body tail,
      processChunks st buf chunks = body ++ tail ∧
      (∀ e ∈ body, isTerminal e = false) ∧
      TailShape tail ∧
      ((∀ c ∈ chunks, chunkIsOk c = true) → ∀ m, ¬ StreamEvent.error m ∈ tail) ∧
      (∀ r, StreamEvent.done r ∈ tail → r.content = st.full_content ++ String.join (tokenTexts body)) ∧
      ((∀ c ∈ chunks, chunkIsOk c = true) → tail = [] → st.full_content ++ String.join (tokenTexts body) = "") ∧
      (∀ x ∈ tokenTexts body, ¬ x = "") ∧
      ((∀ r, ¬ StreamEvent.done r ∈ tail) →
        st.full_content ++ String.join (tokenTexts body) = "" ∧
        hasToolDelta body = false ∧ st.tool_calls_acc.isEmpty = true) := by
  induction chunks with
  | nil =>
    intro st buf
    show ∃ body tail, flushTail st = body ++ tail ∧ _
    unfold flushTail
    by_cases hcond : ¬ (st.full_content = "") ∨ ¬ st.tool_calls_acc.isEmpty
    · rw [if_pos hcond]
      refine ⟨[], [StreamEvent.done (buildResponse st)], rfl, by simp, TailShape.doneT _,
        by simp, ?_, by simp, by simp [tokenTexts], ?_⟩
      · intro r hr
        simp at hr
        subst hr
        show st.full_content = st.full_content ++ String.join (tokenTexts [])
        exact (string_append_empty _).symm
      · intro hnd
        exact absurd (by simp) (hnd (buildResponse st))
    · rw [if_neg hcond]
      push_neg at hcond
      refine ⟨[], [], rfl, by simp, TailShape.nil, by simp, by simp, ?_, by simp [tokenTexts], ?_⟩
      · intro _ _
        show st.full_content ++ String.join (tokenTexts []) = ""
        rw [show String.join (tokenTexts ([] : List StreamEvent)) = "" from rfl, string_append_empty]
        exact hcond.1
      · intro _
        refine ⟨?_, rfl, hcond.2⟩
        show st.full_content ++ String.join (tokenTexts []) = ""
        rw [show String.join (tokenTexts ([] : List StreamEvent)) = "" from rfl, string_append_empty]
        exact hcond.1
  | cons c rest ih =>
    intro st buf
    cases c with
    | error e =>
      show ∃ body tail,
        StreamEvent.error ("Stream error: " ++ e) :: flushTail st = body ++ tail ∧ _
      have hbad : ¬ (∀ c ∈ (Except.error e : Except String String) :: rest, chunkIsOk c = true) := by
        intro h
        have := h _ (List.mem_cons_self _ _)
        simp [chunkIsOk] at this
      unfold flushTail
      by_cases hcond : ¬ (st.full_content = "") ∨ ¬ st.tool_calls_acc.isEmpty
      · rw [if_pos hcond]
        refine ⟨[], [StreamEvent.error ("Stream error: " ++ e), StreamEvent.done (buildResponse st)],
          rfl, by simp, TailShape.errDoneT _ _, fun h => absurd h hbad, ?_,
          fun h => absurd h hbad, by simp [tokenTexts], ?_⟩
        · intro r hr
          simp at hr
          subst hr
          show st.full_content = st.full_content ++ String.join (tokenTexts [])
          exact (string_append_empty _).symm
        · intro hnd
          exact absurd (by simp) (hnd (buildResponse st))
      · rw [if_neg hcond]
        push_neg at hcond
        refine ⟨[], [StreamEvent.error ("Stream error: " ++ e)], rfl, by simp, TailShape.errT _,
          fun h => absurd h hbad, by simp, fun h => absurd h hbad, by simp [tokenTexts], ?_⟩
        intro _
        refine ⟨?_, rfl, hcond.2⟩
        show st.full_content ++ String.join (tokenTexts []) = ""
        rw [show String.join (tokenTexts ([] : List StreamEvent)) = "" from rfl, string_append_empty]
        exact hcond.1
    | ok s =>
      have hbuf := processLines_ok (splitLines (buf ++ s.data)).fst st
      have hacc := processLines_acc (splitLines (buf ++ s.data)).fst st
      show ∃ body tail,
        (match processLines st (splitLines (buf ++ s.data)).fst with
         | BufOutcome.finished evs => evs
         | BufOutcome.cont st' evs => evs ++ processChunks st' (splitLines (buf ++ s.data)).snd rest) = body ++ tail ∧ _
      cases hL : processLines st (splitLines (buf ++ s.data)).fst with
      | finished evs =>
        rw [hL] at hbuf
        obtain ⟨evs0, r, heq, n0, f0, t0⟩ := hbuf
        subst heq
        show ∃ body tail, evs0 ++ [StreamEvent.done r] = body ++ tail ∧ _
        refine ⟨evs0, [StreamEvent.done r], rfl, n0, TailShape.doneT _, by simp, ?_, by simp, t0, ?_⟩
        · intro r' hr'
          simp at hr'
          subst hr'
          exact f0
        · intro hnd
          exact absurd (by simp) (hnd r)
      | cont st1 evs1 =>
        rw [hL] at hbuf
        rw [hL] at hacc
        obtain ⟨n1, f1, t1⟩ := hbuf
        obtain ⟨body2, tail2, heq2, nb2, hsh2, herr2, hdone2, hnil2, htok2, hflush2⟩ :=
          ih st1 (splitLines (buf ++ s.data)).snd
        show ∃ body tail,
          evs1 ++ processChunks st1 (splitLines (buf ++ s.data)).snd rest = body ++ tail ∧ _
        refine ⟨evs1 ++ body2, tail2, ?_, ?_, hsh2, ?_, ?_, ?_, ?_, ?_⟩
        · rw [heq2, List.append_assoc]
        · intro e he
          rcases List.mem_append.mp he with h | h
          · exact n1 e h
          · exact nb2 e h
        · intro h
          exact herr2 (fun x hx => h x (by simp [hx]))
        · intro r hr
          rw [hdone2 r hr, f1, tokenTexts_append, string_join_append, String.append_assoc]
        · intro h htl
          have := hnil2 (fun x hx => h x (by simp [hx])) htl
          rw [f1] at this
          rw [tokenTexts_append, string_join_append, ← String.append_assoc]
          exact this
        · intro x hx
          rw [tokenTexts_append] at hx
          rcases List.mem_append.mp hx with h | h
          · exact t1 x h
          · exact htok2 x h
        · intro hnd
          obtain ⟨g1, g2, g3⟩ := hflush2 hnd
          obtain ⟨h3, h4⟩ := hacc g3
          refine ⟨?_, ?_, h3⟩
          · rw [tokenTexts_append, string_join_append, ← String.append_assoc, ← f1]
            exact g1
          · rw [hasToolDelta_append, h4, g2]
            rfl

/-! ## Tool-call delta merging (claim C5)

The spec-side description of the merge, written from the claim's
words: per index, id/name are the last present values, argument
fragments concatenate in arrival order, and the final list is the
distinct indices in ascending order. -/

def accFold (ds : List (Nat × Option String × Option String × String)) :
    List (Nat × ToolAccEntry) :=
  ds.foldl (fun a d => accStep a d.fst d.snd.fst d.snd.snd.fst d.snd.snd.snd) []

def specMergedId (ds : List (Nat × Option String × Option String × String)) (i : Nat) : String :=
  ds.foldl (fun a d => if d.fst = i then (d.snd.fst).getD a else a) ""

def specMergedName (ds : List (Nat × Option String × Option String × String)) (i : Nat) : String :=
  ds.foldl (fun a d => if d.fst = i then (d.snd.snd.fst).getD a else a) ""

def specMergedArgs (ds : List (Nat × Option String × Option String × String)) (i : Nat) : String :=
  String.join ((ds.filter (fun d => d.fst == i)).map (fun d => d.snd.snd.snd))

def specEntry (ds : List (Nat × Option String × Option String × String)) (i : Nat) : ToolAccEntry :=
  ⟨specMergedId ds i, specMergedName ds i, specMergedArgs ds i⟩

/-- The distinct values of a list, in first-appearance order. -/
def firstKeys (l : List Nat) : List Nat :=
  l.foldl (fun acc i => if i ∈ acc then acc else acc ++ [i]) []

def insertNat (i : Nat) : List Nat → List Nat
  | [] => [i]
  | j :: js => if i ≤ j then i :: j :: js else j :: insertNat i js

def sortNat : List Nat → List Nat
  | [] => []
  | i :: is => insertNat i (sortNat is)

def specToolCalls (ds : List (Nat × Option String × Option String × String)) : List ToolCall :=
  (sortNat (firstKeys (ds.map (fun d => d.fst)))).map (fun i =>
    { id := specMergedId ds i
      call_type := some "function"
      function := some { name := specMergedName ds i, arguments := specMergedArgs ds i }
      name := none
      arguments := none })

theorem foldl_keys_mem (l : List Nat) :
    ∀ acc x, x ∈ l.foldl (fun acc i => if i ∈ acc then acc else acc ++ [i]) acc ↔
      x ∈ acc ∨ x ∈ l := by
  induction l with
  | nil =>
    intro acc x
    simp
  | cons i l ih =>
    intro acc x
    rw [List.foldl_cons]
    by_cases hi : i ∈ acc
    · rw [if_pos hi, ih]
      constructor
      · rintro (h | h)
        · exact Or.inl h
        · exact Or.inr (by simp [h])
      · rintro (h | h)
        · exact Or.inl h
        · rcases List.mem_cons.mp h with rfl | h2
          · exact Or.inl hi
          · exact Or.inr h2
    · rw [if_neg hi, ih]
      constructor
      · rintro (h | h)
        · rcases List.mem_append.mp h with h2 | h2
          · exact Or.inl h2
          · simp at h2
            exact Or.inr (by simp [h2])
        · exact Or.inr (by simp [h])
      · rintro (h | h)
        · exact Or.inl (by simp [h])
        · rcases List.mem_cons.mp h with rfl | h2
          · exact Or.inl (by simp)
          · exact Or.inr h2

theorem firstKeys_mem (l : List Nat) (x : Nat) : x ∈ firstKeys l ↔ x ∈ l := by
  unfold firstKeys
  rw [foldl_keys_mem]
  simp

theorem specMergedId_absent (ds : List (Nat × Option String × Option String × String)) (i : Nat)
    (h : ¬ i ∈ ds.map (fun d => d.fst)) : specMergedId ds i = "" := by
  unfold specMergedId
  have main : ∀ (l : List (Nat × Option String × Option String × String)) (acc : String),
      (¬ i ∈ l.map (fun d => d.fst)) →
      l.foldl (fun a d => if d.fst = i then (d.snd.fst).getD a else a) acc = acc := by
    intro l
    induction l with
    | nil => intro acc _; rfl
    | cons d l ih =>
      intro acc hm
      rw [List.foldl_cons, if_neg (by
        intro hd
        exact hm (by simp [hd]))]
      exact ih acc (fun hx => hm (by simp [List.mem_map] at hx ⊢; exact Or.inr hx))
  exact main ds "" h

theorem specMergedName_absent (ds : List (Nat × Option String × Option String × String)) (i : Nat)
    (h : ¬ i ∈ ds.map (fun d => d.fst)) : specMergedName ds i = "" := by
  unfold specMergedName
  have main : ∀ (l : List (Nat × Option String × Option String × String)) (acc : String),
      (¬ i ∈ l.map (fun d => d.fst)) →
      l.foldl (fun a d => if d.fst = i then (d.snd.snd.fst).getD a else a) acc = acc := by
    intro l
    induction l with
    | nil => intro acc _; rfl
    | cons d l ih =>
      intro acc hm
      rw [List.foldl_cons, if_neg (by
        intro hd
        exact hm (by simp [hd]))]
      exact ih acc (fun hx => hm (by simp [List.mem_map] at hx ⊢; exact Or.inr hx))
  exact main ds "" h

theorem specMergedArgs_absent (ds : List (Nat × Option String × Option String × String)) (i : Nat)
    (h : ¬ i ∈ ds.map (fun d => d.fst)) : specMergedArgs ds i = "" := by
  unfold specMergedArgs
  rw [show ds.filter (fun d => d.fst == i) = [] from by
    apply List.filter_eq_nil_iff.mpr
    intro d hd
    simp only [beq_iff_eq]
    intro hdi
    exact h (List.mem_map.mpr ⟨d, hd, hdi⟩)]
  rfl

theorem specMergedId_snoc (ds : List (Nat × Option String × Option String × String))
    (d : Nat × Option String × Option String × String) (i : Nat) :
    specMergedId (ds ++ [d]) i =
      if d.fst = i then (d.snd.fst).getD (specMergedId ds i) else specMergedId ds i := by
  unfold specMergedId
  rw [List.foldl_append]
  rfl

theorem specMergedName_snoc (ds : List (Nat × Option String × Option String × String))
    (d : Nat × Option String × Option String × String) (i : Nat) :
    specMergedName (ds ++ [d]) i =
      if d.fst = i then (d.snd.snd.fst).getD (specMergedName ds i) else specMergedName ds i := by
  unfold specMergedName
  rw [List.foldl_append]
  rfl

theorem string_join_single (s : String) : String.join [s] = s := by
  apply String.ext
  simp [string_join_data]

theorem specMergedArgs_snoc (ds : List (Nat × Option String × Option String × String))
    (d : Nat × Option String × Option String × String) (i : Nat) :
    specMergedArgs (ds ++ [d]) i =
      if d.fst = i then specMergedArgs ds i ++ d.snd.snd.snd else specMergedArgs ds i := by
  unfold specMergedArgs
  rw [List.filter_append]
  by_cases hd : d.fst = i
  · rw [if_pos hd]
    rw [show List.filter (fun d0 => d0.fst == i) [d] = [d] from by simp [hd]]
    rw [List.map_append, string_join_append]
    rw [show ([d].map (fun d0 => d0.snd.snd.snd)) = [d.snd.snd.snd] from rfl]
    rw [string_join_single]
  · rw [if_neg hd]
    rw [show List.filter (fun d0 => d0.fst == i) [d] = [] from by simp [hd]]
    simp

theorem specEntry_snoc (ds : List (Nat × Option String × Option String × String))
    (d : Nat × Option String × Option String × String) (i : Nat) :
    specEntry (ds ++ [d]) i =
      if d.fst = i then applyDelta (specEntry ds i) d.snd.fst d.snd.snd.fst d.snd.snd.snd
      else specEntry ds i := by
  unfold specEntry applyDelta
  by_cases hd : d.fst = i
  · rw [if_pos hd]
    rw [specMergedId_snoc, specMergedName_snoc, specMergedArgs_snoc,
      if_pos hd, if_pos hd, if_pos hd]
  · rw [if_neg hd]
    rw [specMergedId_snoc, specMergedName_snoc, specMergedArgs_snoc,
      if_neg hd, if_neg hd, if_neg hd]

theorem specEntry_absent (ds : List (Nat × Option String × Option String × String)) (i : Nat)
    (h : ¬ i ∈ ds.map (fun d => d.fst)) : specEntry ds i = ⟨"", "", ""⟩ := by
  unfold specEntry
  rw [specMergedId_absent ds i h, specMergedName_absent ds i h, specMergedArgs_absent ds i h]

/-- The accumulator after folding a delta sequence: the distinct
indices in first-appearance order, each carrying its merged entry. -/
theorem accFold_char (ds : List (Nat × Option String × Option String × String)) :
    accFold ds = (firstKeys (ds.map (fun d => d.fst))).map (fun i => (i, specEntry ds i)) := by
  induction ds using List.reverseRecOn with
  | nil => rfl
  | append_singleton ds d ih =>
    rw [show accFold (ds ++ [d]) =
        accStep (accFold ds) d.fst d.snd.fst d.snd.snd.fst d.snd.snd.snd from by
      unfold accFold
      rw [List.foldl_append]
      rfl]
    rw [ih]
    rw [show (ds ++ [d]).map (fun d => d.fst) = ds.map (fun d => d.fst) ++ [d.fst] from by
      rw [List.map_append]
      rfl]
    rw [show firstKeys (ds.map (fun d => d.fst) ++ [d.fst]) =
        (if d.fst ∈ firstKeys (ds.map (fun d => d.fst)) then firstKeys (ds.map (fun d => d.fst))
         else firstKeys (ds.map (fun d => d.fst)) ++ [d.fst]) from by
      unfold firstKeys
      rw [List.foldl_append]
      rfl]
    set ks := firstKeys (ds.map (fun d => d.fst)) with hks
    by_cases hd : d.fst ∈ ks
    · rw [if_pos hd]
      unfold accStep
      rw [if_pos (by
        apply List.any_eq_true.mpr
        exact ⟨(d.fst, specEntry ds d.fst), List.mem_map.mpr ⟨d.fst, hd, rfl⟩, by simp⟩)]
      rw [List.map_map]
      apply List.map_congr_left
      intro i _
      show (if (i, specEntry ds i).fst == d.fst
            then ((i, specEntry ds i).fst, applyDelta (i, specEntry ds i).snd d.snd.fst d.snd.snd.fst d.snd.snd.snd)
            else (i, specEntry ds i)) = (i, specEntry (ds ++ [d]) i)
      rw [specEntry_snoc]
      by_cases hi : i = d.fst
      · rw [if_pos (by simp [hi]), if_pos hi.symm]
      · rw [if_neg (by simp [hi]), if_neg (fun h => hi h.symm)]
    · rw [if_neg hd]
      unfold accStep
      rw [if_neg (by
        intro hany
        obtain ⟨p, hp, hpd⟩ := List.any_eq_true.mp hany
        obtain ⟨i, hi, rfl⟩ := List.mem_map.mp hp
        simp at hpd
        exact hd (hpd ▸ hi))]
      rw [List.map_append]
      congr 1
      · apply List.map_congr_left
        intro i hi
        rw [specEntry_snoc, if_neg (by
          intro h
          exact hd (h ▸ hi))]
      · rw [show ([d.fst].map (fun i => (i, specEntry (ds ++ [d]) i))) =
            [(d.fst, specEntry (ds ++ [d]) d.fst)] from rfl]
        rw [specEntry_snoc, if_pos rfl]
        rw [specEntry_absent ds d.fst (fun h => hd ((firstKeys_mem _ _).mpr h))]

theorem insertByKey_map (i : Nat) (f : Nat → ToolAccEntry) (ks : List Nat) :
    insertByKey (i, f i) (ks.map (fun j => (j, f j))) =
      (insertNat i ks).map (fun j => (j, f j)) := by
  induction ks with
  | nil => rfl
  | cons j js ih =>
    show (if i ≤ j then (i, f i) :: (j, f j) :: js.map (fun j => (j, f j))
          else (j, f j) :: insertByKey (i, f i) (js.map (fun j => (j, f j)))) =
      ((if i ≤ j then i :: j :: js else j :: insertNat i js).map (fun j => (j, f j)))
    by_cases hij : i ≤ j
    · rw [if_pos hij, if_pos hij]
      rfl
    · rw [if_neg hij, if_neg hij, List.map_cons, ih]

theorem sortByKey_map (ks : List Nat) (f : Nat → ToolAccEntry) :
    sortByKey (ks.map (fun j => (j, f j))) = (sortNat ks).map (fun j => (j, f j)) := by
  induction ks with
  | nil => rfl
  | cons j js ih =>
    show insertByKey (j, f j) (sortByKey (js.map (fun j => (j, f j)))) = _
    rw [ih, insertByKey_map]
    rfl

/-- C5's core: folding any delta sequence and finalizing at the
sentinel yields exactly the merged, index-sorted tool calls. -/
theorem accFold_finalize (ds : List (Nat × Option String × Option String × String)) :
    finalizeToolCalls (accFold ds) = if ds.isEmpty then none else some (specToolCalls ds) := by
  cases ds with
  | nil => rfl
  | cons d ds' =>
    rw [show ((d :: ds').isEmpty) = false from rfl, if_neg (by simp)]
    rw [accFold_char]
    unfold finalizeToolCalls
    have hne : firstKeys ((d :: ds').map (fun d => d.fst)) ≠ [] := by
      intro h
      have : d.fst ∈ firstKeys ((d :: ds').map (fun d => d.fst)) :=
        (firstKeys_mem _ _).mpr (by simp)
      rw [h] at this
      simp at this
    rw [if_neg (by
      intro h
      exact hne (List.map_eq_nil_iff.mp (List.isEmpty_iff.mp h)))]
    rw [sortByKey_map]
    rw [List.map_map]
    rfl

/-! ## Agent-loop lemmas (claims C1, C2, C7, C8) -/

theorem getD_range_map {α β : Type} (l : List α) (g : α → β) (d : α) :
    (List.range l.length).map (fun i => g (l.getD i d)) = l.map g := by
  induction l with
  | nil => rfl
  | cons a l ih =>
    rw [show (a :: l).length = l.length + 1 from rfl, List.range_succ_eq_map]
    rw [List.map_cons, List.map_map, List.map_cons]
    have hcomp : ((fun i => g ((a :: l).getD i d)) ∘ Nat.succ) = (fun i => g (l.getD i d)) := rfl
    rw [hcomp, ih]
    rfl

/-- The tool-call ids referenced by the tool messages, in order. -/
def toolMessageIds (msgs : List Message) : List String :=
  msgs.filterMap (fun m => if m.role = "tool" then m.tool_call_id else none)

/-- The ids of a message's tool calls. -/
def toolCallIds (m : Message) : List String :=
  (m.tool_calls.getD []).map (fun tc => tc.id)

/-- Every tool message's tool_call_id appears among the tool-call ids
of some earlier assistant message (seen accumulates those ids). -/
def toolLinkedAux (seen : List String) : List Message → Bool
  | [] => true
  | m :: ms =>
    (if m.role = "tool" then
       (match m.tool_call_id with
        | some i => seen.contains i
        | none => false)
     else true) &&
    toolLinkedAux (if m.role = "assistant" then seen ++ toolCallIds m else seen) ms

def toolLinked (msgs : List Message) : Bool := toolLinkedAux [] msgs

def seenAfter (seen : List String) (msgs : List Message) : List String :=
  msgs.foldl (fun s m => if m.role = "assistant" then s ++ toolCallIds m else s) seen

theorem toolLinkedAux_append (l1 : List Message) :
    ∀ (seen : List String) (l2 : List Message),
      toolLinkedAux seen (l1 ++ l2) =
        (toolLinkedAux seen l1 && toolLinkedAux (seenAfter seen l1) l2) := by
  induction l1 with
  | nil =>
    intro seen l2
    rfl
  | cons m ms ih =>
    intro seen l2
    rw [List.cons_append]
    show ((if m.role = "tool" then _ else true) && toolLinkedAux _ (ms ++ l2)) = _
    rw [ih]
    rw [← Bool.and_assoc]
    rfl

theorem contains_mono (seen seen' : List String) (h : ∀ x ∈ seen, x ∈ seen') (i : String)
    (hc : seen.contains i = true) : seen'.contains i = true := by
  have h1 : i ∈ seen := List.elem_iff.mp hc
  exact List.elem_iff.mpr (h i h1)

theorem toolLinkedAux_mono (l : List Message) :
    ∀ seen seen' : List String, (∀ x ∈ seen, x ∈ seen') →
      toolLinkedAux seen l = true → toolLinkedAux seen' l = true := by
  induction l with
  | nil =>
    intro _ _ _ _
    rfl
  | cons m ms ih =>
    intro seen seen' hsub h
    show ((if m.role = "tool" then _ else true) && toolLinkedAux _ ms) = true
    replace h : ((if m.role = "tool" then
        (match m.tool_call_id with
         | some i => seen.contains i
         | none => false)
      else true) && toolLinkedAux (if m.role = "assistant" then seen ++ toolCallIds m else seen) ms) = true := h
    rw [Bool.and_eq_true] at h ⊢
    obtain ⟨h1, h2⟩ := h
    constructor
    · by_cases hrole : m.role = "tool"
      · rw [if_pos hrole] at h1 ⊢
        revert h1
        cases m.tool_call_id with
        | none =>
          intro h1
          exact absurd h1 (by simp)
        | some i =>
          intro h1
          exact contains_mono seen seen' hsub i h1
      · rw [if_neg hrole]
    · by_cases hrole : m.role = "assistant"
      · rw [if_pos hrole] at h2 ⊢
        refine ih _ _ ?_ h2
        intro x hx
        rcases List.mem_append.mp hx with h | h
        · exact List.mem_append.mpr (Or.inl (hsub x h))
        · exact List.mem_append.mpr (Or.inr h)
      · rw [if_neg hrole] at h2 ⊢
        exact ih _ _ hsub h2

theorem toolLinkedAux_toolMsgs (tmsgs : List Message) :
    ∀ seen : List String,
      (∀ m ∈ tmsgs, m.role = "tool" ∧
        ∃ i, m.tool_call_id = some i ∧ seen.contains i = true) →
      toolLinkedAux seen tmsgs = true := by
  induction tmsgs with
  | nil =>
    intro _ _
    rfl
  | cons m ms ih =>
    intro seen h
    obtain ⟨hrole, i, hid, hc⟩ := h m (by simp)
    show ((if m.role = "tool" then _ else true) && toolLinkedAux _ ms) = true
    rw [Bool.and_eq_true]
    constructor
    · rw [if_pos hrole, hid]
      exact hc
    · rw [if_neg (by rw [hrole]; intro hcontra; exact absurd hcontra (by decide))]
      exact ih seen (fun x hx => h x (by simp [hx]))

theorem toolLinkedAux_single_nontool (s : List String) (m : Message) (h : ¬ m.role = "tool") :
    toolLinkedAux s [m] = true := by
  show ((if m.role = "tool" then _ else true) && toolLinkedAux _ []) = true
  rw [if_neg h]
  rfl

theorem toolLinked_append_assistant (sess : List Message) (c : String)
    (h : toolLinked sess = true) :
    toolLinked (sess ++ [Message.assistant c]) = true := by
  unfold toolLinked at h ⊢
  rw [toolLinkedAux_append, h, Bool.true_and]
  exact toolLinkedAux_single_nontool _ _ (by simp [Message.assistant])

theorem has_tool_calls_getD (r : LLMResponse) (h : r.has_tool_calls = true) :
    (r.tool_calls.getD []).isEmpty = false := by
  unfold LLMResponse.has_tool_calls at h
  cases hc : r.tool_calls with
  | none =>
    rw [hc] at h
    exact absurd h (by simp)
  | some tc =>
    rw [hc] at h
    simp at h
    simp [h]

theorem tool_result_id_mem (tcs : List ToolCall) (i : Nat) (hi : i < tcs.length) :
    (tcs.getD i default).id ∈ tcs.map (fun tc => tc.id) := by
  rw [List.getD_eq_getElem tcs default hi]
  exact List.mem_map.mpr ⟨tcs[i], List.getElem_mem hi, rfl⟩

/-- One batch of all-successfully-joined tool results produces tool
messages whose ids are tool-call ids of the batch. -/
theorem toolMessages_linked (exec : String → List (String × Json) → ToolResult)
    (tcs : List ToolCall) (outcomes : List (Nat ⊕ String))
    (hok : ∀ o ∈ outcomes, ∃ i, o = Sum.inl i ∧ i < tcs.length) :
    ∀ m ∈ toolMessages (execute_tools exec tcs outcomes), m.role = "tool" ∧
      ∃ j, m.tool_call_id = some j ∧ j ∈ tcs.map (fun tc => tc.id) := by
  intro m hm
  obtain ⟨r, hr, rfl⟩ := List.mem_map.mp hm
  obtain ⟨o, ho, rfl⟩ := List.mem_map.mp hr
  obtain ⟨i, rfl, hlt⟩ := hok o ho
  exact ⟨rfl, (tcs.getD i default).id, rfl, tool_result_id_mem tcs i hlt⟩

theorem toolLinked_append_batch (msgs : List Message) (content : String)
    (tcs : List ToolCall) (tmsgs : List Message)
    (hne : tcs.isEmpty = false)
    (hmsgs : toolLinked msgs = true)
    (htm : ∀ m ∈ tmsgs, m.role = "tool" ∧
      ∃ j, m.tool_call_id = some j ∧ j ∈ tcs.map (fun tc => tc.id)) :
    toolLinked (msgs ++ Message.assistant_with_tool_calls content tcs :: tmsgs) = true := by
  unfold toolLinked
  rw [toolLinkedAux_append, Bool.and_eq_true]
  refine ⟨hmsgs, ?_⟩
  set amsg := Message.assistant_with_tool_calls content tcs with hamsg
  have hrole : amsg.role = "assistant" := rfl
  show ((if amsg.role = "tool" then _ else true) && toolLinkedAux _ tmsgs) = true
  rw [if_neg (by rw [hrole]; intro hc; exact absurd hc (by decide))]
  rw [Bool.true_and, if_pos hrole]
  apply toolLinkedAux_toolMsgs
  intro m hm
  obtain ⟨hr, j, hid, hj⟩ := htm m hm
  refine ⟨hr, j, hid, ?_⟩
  apply List.elem_iff.mpr
  apply List.mem_append.mpr
  right
  rw [show toolCallIds amsg = tcs.map (fun tc => tc.id) from by
    unfold toolCallIds
    rw [hamsg]
    unfold Message.assistant_with_tool_calls
    rw [show (⟨"assistant", content, if tcs.isEmpty then none else some tcs, none⟩ : Message).tool_calls
        = if tcs.isEmpty then none else some tcs from rfl]
    rw [hne]
    rfl]
  exact hj

/-- One unfolding of the iteration loop. -/
theorem loopIter_succ (provider : List Message → LLMResponse)
    (exec : String → List (String × Json) → ToolResult)
    (schedule : Nat → Nat → List (Nat ⊕ String))
    (fuel idx : Nat) (msgs sess : List Message) (calls : Nat) :
    loopIter provider exec schedule (fuel + 1) idx msgs sess calls =
      (if ¬ (provider msgs).has_tool_calls then
        ((provider msgs).content, msgs,
         sess ++ [Message.assistant (provider msgs).content], calls + 1)
       else
        (let tcs := (provider msgs).tool_calls.getD []
         let amsg := Message.assistant_with_tool_calls (provider msgs).content tcs
         let tmsgs := toolMessages (execute_tools exec tcs (schedule idx tcs.length))
         loopIter provider exec schedule fuel (idx + 1)
           (msgs ++ amsg :: tmsgs) (sess ++ amsg :: tmsgs) (calls + 1))) := rfl

/-- The loop preserves the tool-message linkage invariant when every
tool task joins successfully with an in-range index. -/
theorem loopIter_linked (provider : List Message → LLMResponse)
    (exec : String → List (String × Json) → ToolResult)
    (schedule : Nat → Nat → List (Nat ⊕ String))
    (hsch : ∀ idx k, ∀ o ∈ schedule idx k, ∃ i, o = Sum.inl i ∧ i < k) :
    ∀ (fuel idx : Nat) (msgs sess : List Message) (calls : Nat),
      toolLinked msgs = true → toolLinked sess = true →
      toolLinked (loopIter provider exec schedule fuel idx msgs sess calls).snd.fst = true ∧
      toolLinked (loopIter provider exec schedule fuel idx msgs sess calls).snd.snd.fst = true := by
  intro fuel
  induction fuel with
  | zero =>
    intro idx msgs sess calls h1 h2
    exact ⟨h1, h2⟩
  | succ fuel ih =>
    intro idx msgs sess calls h1 h2
    rw [loopIter_succ]
    by_cases hr : (provider msgs).has_tool_calls
    · rw [if_neg (by simp [hr])]
      have hne := has_tool_calls_getD _ hr
      have hlink := toolMessages_linked exec ((provider msgs).tool_calls.getD [])
        (schedule idx ((provider msgs).tool_calls.getD []).length)
        (hsch idx _)
      exact ih (idx + 1) _ _ (calls + 1)
        (toolLinked_append_batch msgs _ _ _ hne h1 hlink)
        (toolLinked_append_batch sess _ _ _ hne h2 hlink)
    · rw [if_pos (by simp [hr])]
      exact ⟨h1, toolLinked_append_assistant sess _ h2⟩

theorem loopIter_one (provider : List Message → LLMResponse)
    (exec : String → List (String × Json) → ToolResult)
    (schedule : Nat → Nat → List (Nat ⊕ String))
    (fuel idx : Nat) (msgs sess : List Message) (calls : Nat)
    (h : (provider msgs).has_tool_calls = false) :
    loopIter provider exec schedule (fuel + 1) idx msgs sess calls =
      ((provider msgs).content, msgs,
       sess ++ [Message.assistant (provider msgs).content], calls + 1) := by
  rw [loopIter_succ]
  rw [if_pos (by simp [h])]

/-! ## Retry-loop lemmas (claim C4) -/

theorem chatLoop_succ (f : Nat → AttemptOutcome) (n d fuel attempt : Nat) (le : Option String) :
    chatLoop f n d (fuel + 1) attempt le =
      (match f attempt with
       | .status code body =>
         if isSuccessCode code then
           (parse_response body, attempt + 1, List.replicate attempt d)
         else if isTransientStatus code ∧ attempt < n then
           chatLoop f n d fuel (attempt + 1) (some (errorTextOf (.status code body)))
         else
           (Except.error (errorTextOf (.status code body)), attempt + 1, List.replicate attempt d)
       | .connErr e =>
         if attempt < n then
           chatLoop f n d fuel (attempt + 1) (some e)
         else
           (Except.error e, attempt + 1, List.replicate attempt d)) := rfl

theorem chatLoop_status (f : Nat → AttemptOutcome) (n d fuel attempt : Nat) (le : Option String)
    (code : Nat) (body : String) (hf : f attempt = .status code body) :
    chatLoop f n d (fuel + 1) attempt le =
      (if isSuccessCode code then
        (parse_response body, attempt + 1, List.replicate attempt d)
      else if isTransientStatus code ∧ attempt < n then
        chatLoop f n d fuel (attempt + 1) (some (errorTextOf (.status code body)))
      else
        (Except.error (errorTextOf (.status code body)), attempt + 1, List.replicate attempt d)) := by
  rw [chatLoop_succ, hf]

theorem chatLoop_conn (f : Nat → AttemptOutcome) (n d fuel attempt : Nat) (le : Option String)
    (e : String) (hf : f attempt = .connErr e) :
    chatLoop f n d (fuel + 1) attempt le =
      (if attempt < n then chatLoop f n d fuel (attempt + 1) (some e)
       else (Except.error e, attempt + 1, List.replicate attempt d)) := by
  rw [chatLoop_succ, hf]

theorem transientFail_status (c : Nat) (b : String) :
    transientFail (.status c b) = true ↔ (¬ isSuccessCode c = true ∧ isTransientStatus c = true) := by
  unfold transientFail
  constructor
  · intro h
    exact of_decide_eq_true h
  · intro h
    exact decide_eq_true h

theorem chatLoop_all_transient (f : Nat → AttemptOutcome) (n d : Nat)
    (h : ∀ i, i ≤ n → transientFail (f i) = true) :
    ∀ (fuel attempt : Nat) (le : Option String), attempt + fuel = n →
      (chatLoop f n d (fuel + 1) attempt le).fst = Except.error (errorTextOf (f n)) := by
  intro fuel
  induction fuel with
  | zero =>
    intro attempt le hsum
    have ha : attempt = n := by omega
    rw [ha]
    cases hf : f n with
    | status code body =>
      rw [chatLoop_status f n d 0 n le code body hf]
      have htf := (transientFail_status code body).mp (by rw [← hf]; exact h n (le_refl n))
      rw [if_neg htf.1, if_neg (by
        intro hcond
        exact absurd hcond.2 (by omega))]
    | connErr e =>
      rw [chatLoop_conn f n d 0 n le e hf]
      rw [if_neg (by omega)]
      rfl
  | succ fuel ih =>
    intro attempt le hsum
    have hlt : attempt < n := by omega
    cases hf : f attempt with
    | status code body =>
      rw [chatLoop_status f n d (fuel + 1) attempt le code body hf]
      have htf := (transientFail_status code body).mp (by rw [← hf]; exact h attempt (by omega))
      rw [if_neg htf.1, if_pos ⟨htf.2, hlt⟩]
      exact ih (attempt + 1) _ (by omega)
    | connErr e =>
      rw [chatLoop_conn f n d (fuel + 1) attempt le e hf]
      rw [if_pos hlt]
      exact ih (attempt + 1) _ (by omega)

theorem chatLoop_attempts_le (f : Nat → AttemptOutcome) (n d : Nat) :
    ∀ (fuel attempt : Nat) (le : Option String),
      (chatLoop f n d fuel attempt le).snd.fst ≤ attempt + fuel := by
  intro fuel
  induction fuel with
  | zero =>
    intro attempt le
    exact Nat.le_refl _
  | succ fuel ih =>
    intro attempt le
    cases hf : f attempt with
    | status code body =>
      rw [chatLoop_status f n d fuel attempt le code body hf]
      by_cases h1 : isSuccessCode code
      · rw [if_pos h1]
        show attempt + 1 ≤ attempt + (fuel + 1)
        omega
      · rw [if_neg h1]
        by_cases h2 : isTransientStatus code ∧ attempt < n
        · rw [if_pos h2]
          have := ih (attempt + 1) (some (errorTextOf (.status code body)))
          omega
        · rw [if_neg h2]
          show attempt + 1 ≤ attempt + (fuel + 1)
          omega
    | connErr e =>
      rw [chatLoop_conn f n d fuel attempt le e hf]
      by_cases h1 : attempt < n
      · rw [if_pos h1]
        have := ih (attempt + 1) (some e)
        omega
      · rw [if_neg h1]
        show attempt + 1 ≤ attempt + (fuel + 1)
        omega

theorem chatLoop_retry_transient (f : Nat → AttemptOutcome) (n d : Nat) :
    ∀ (fuel attempt : Nat) (le : Option String) (i : Nat), attempt ≤ i →
      i + 1 < (chatLoop f n d fuel attempt le).snd.fst → transientFail (f i) = true := by
  intro fuel
  induction fuel with
  | zero =>
    intro attempt le i hai hcount
    have : (chatLoop f n d 0 attempt le).snd.fst = attempt := rfl
    rw [this] at hcount
    omega
  | succ fuel ih =>
    intro attempt le i hai hcount
    cases hf : f attempt with
    | status code body =>
      rw [chatLoop_status f n d fuel attempt le code body hf] at hcount
      by_cases h1 : isSuccessCode code
      · rw [if_pos h1] at hcount
        simp at hcount
        omega
      · rw [if_neg h1] at hcount
        by_cases h2 : isTransientStatus code ∧ attempt < n
        · rw [if_pos h2] at hcount
          by_cases hia : i = attempt
          · subst hia
            rw [hf]
            exact (transientFail_status code body).mpr ⟨h1, h2.1⟩
          · exact ih (attempt + 1) _ i (by omega) hcount
        · rw [if_neg h2] at hcount
          simp at hcount
          omega
    | connErr e =>
      rw [chatLoop_conn f n d fuel attempt le e hf] at hcount
      by_cases h1 : attempt < n
      · rw [if_pos h1] at hcount
        by_cases hia : i = attempt
        · subst hia
          rw [hf]
          rfl
        · exact ih (attempt + 1) _ i (by omega) hcount
      · rw [if_neg h1] at hcount
        simp at hcount
        omega

theorem chatLoop_fatal_at (f : Nat → AttemptOutcome) (n d : Nat) (k : Nat) (c : Nat) (b : String)
    (hf : f k = .status c b)
    (hsucc : isSuccessCode c = false) (htr : isTransientStatus c = false) :
    ∀ (fuel attempt : Nat) (le : Option String), attempt ≤ k → k < attempt + fuel →
      (∀ i, attempt ≤ i → i < k → transientFail (f i) = true) →
      (∀ i, attempt ≤ i → i < k → i < n) →
      chatLoop f n d fuel attempt le =
        (Except.error (errorTextOf (.status c b)), k + 1, List.replicate k d) := by
  intro fuel
  induction fuel with
  | zero =>
    intro attempt le h1 h2 _ _
    omega
  | succ fuel ih =>
    intro attempt le h1 h2 htrans hlt
    by_cases hak : attempt = k
    · subst hak
      rw [chatLoop_status f n d fuel attempt le c b hf]
      rw [if_neg (by rw [hsucc]; intro hcontra; exact absurd hcontra (by decide))]
      rw [if_neg (by
        intro hcond
        rw [htr] at hcond
        exact absurd hcond.1 (by decide))]
    · have halt : attempt < k := by omega
      have htra := htrans attempt (le_refl _) halt
      cases hfa : f attempt with
      | status code body =>
        rw [hfa] at htra
        obtain ⟨hs, ht⟩ := (transientFail_status code body).mp htra
        rw [chatLoop_status f n d fuel attempt le code body hfa]
        rw [if_neg hs, if_pos ⟨ht, hlt attempt (le_refl _) halt⟩]
        exact ih (attempt + 1) _ (by omega) (by omega)
          (fun i hi1 hi2 => htrans i (by omega) hi2)
          (fun i hi1 hi2 => hlt i (by omega) hi2)
      | connErr e =>
        rw [chatLoop_conn f n d fuel attempt le e hfa]
        rw [if_pos (hlt attempt (le_refl _) halt)]
        exact ih (attempt + 1) _ (by omega) (by omega)
          (fun i hi1 hi2 => htrans i (by omega) hi2)
          (fun i hi1 hi2 => hlt i (by omega) hi2)

theorem chatLoop_success_at (f : Nat → AttemptOutcome) (n d : Nat) (k : Nat) (c : Nat) (b : String)
    (hf : f k = .status c b) (hsucc : isSuccessCode c = true) :
    ∀ (fuel attempt : Nat) (le : Option String), attempt ≤ k → k < attempt + fuel →
      (∀ i, attempt ≤ i → i < k → transientFail (f i) = true) →
      (∀ i, attempt ≤ i → i < k → i < n) →
      chatLoop f n d fuel attempt le = (parse_response b, k + 1, List.replicate k d) := by
  intro fuel
  induction fuel with
  | zero =>
    intro attempt le h1 h2 _ _
    omega
  | succ fuel ih =>
    intro attempt le h1 h2 htrans hlt
    by_cases hak : attempt = k
    · subst hak
      rw [chatLoop_status f n d fuel attempt le c b hf, if_pos hsucc]
    · have halt : attempt < k := by omega
      have htra := htrans attempt (le_refl _) halt
      cases hfa : f attempt with
      | status code body =>
        rw [hfa] at htra
        obtain ⟨hs, ht⟩ := (transientFail_status code body).mp htra
        rw [chatLoop_status f n d fuel attempt le code body hfa]
        rw [if_neg hs, if_pos ⟨ht, hlt attempt (le_refl _) halt⟩]
        exact ih (attempt + 1) _ (by omega) (by omega)
          (fun i hi1 hi2 => htrans i (by omega) hi2)
          (fun i hi1 hi2 => hlt i (by omega) hi2)
      | connErr e =>
        rw [chatLoop_conn f n d fuel attempt le e hfa]
        rw [if_pos (hlt attempt (le_refl _) halt)]
        exact ih (attempt + 1) _ (by omega) (by omega)
          (fun i hi1 hi2 => htrans i (by omega) hi2)
          (fun i hi1 hi2 => hlt i (by omega) hi2)

theorem replicate_tail (k : Nat) (d : Nat) :
    (List.replicate k d).tail = List.replicate (k - 1) d := by
  cases k with
  | zero => rfl
  | succ k =>
    rw [List.replicate_succ]
    simp

theorem chatLoop_delays (f : Nat → AttemptOutcome) (n d : Nat) :
    ∀ (fuel attempt : Nat) (le : Option String),
      (chatLoop f n d fuel attempt le).snd.snd =
        List.replicate ((chatLoop f n d fuel attempt le).snd.fst - 1) d := by
  intro fuel
  induction fuel with
  | zero =>
    intro attempt le
    exact replicate_tail attempt d
  | succ fuel ih =>
    intro attempt le
    cases hf : f attempt with
    | status code body =>
      rw [chatLoop_status f n d fuel attempt le code body hf]
      by_cases h1 : isSuccessCode code
      · rw [if_pos h1]
        simp
      · rw [if_neg h1]
        by_cases h2 : isTransientStatus code ∧ attempt < n
        · rw [if_pos h2]
          exact ih (attempt + 1) _
        · rw [if_neg h2]
          simp
    | connErr e =>
      rw [chatLoop_conn f n d fuel attempt le e hf]
      by_cases h1 : attempt < n
      · rw [if_pos h1]
        exact ih (attempt + 1) _
      · rw [if_neg h1]
        simp

/-! ## Session-store lemmas (claim C9) -/

theorem lookupAssoc_none_find {α : Type} (l : List (String × α)) (k : String)
    (h : lookupAssoc l k = none) : l.find? (fun p => p.fst == k) = none := by
  unfold lookupAssoc at h
  cases hf : l.find? (fun p => p.fst == k) with
  | none => rfl
  | some p =>
    rw [hf] at h
    exact absurd h (by simp)

theorem insertAssoc_lookup {α : Type} (l : List (String × α)) (k : String) (v : α)
    (h : lookupAssoc l k = none) : lookupAssoc (insertAssoc l k v) k = some v := by
  have hf := lookupAssoc_none_find l k h
  have hany : l.any (fun p => p.fst == k) = false := by
    rw [← Bool.not_eq_true, List.any_eq_true]
    rintro ⟨p, hp, hpk⟩
    exact absurd hpk (List.find?_eq_none.mp hf p hp)
  unfold insertAssoc
  rw [hany]
  show lookupAssoc (l ++ [(k, v)]) k = some v
  unfold lookupAssoc
  rw [List.find?_append, hf]
  simp

theorem get_messages_miss (st : SessionStore) (key : String) (d : SessionData)
    (hc : lookupAssoc st.cache key = none)
    (hd : lookupAssoc st.disk (session_path key) = some d) :
    get_messages st key = (d.messages, { st with cache := insertAssoc st.cache key d }) := by
  unfold get_messages
  rw [hc, hd]

/-! ## Further helpers for the claim theorems -/

theorem string_empty_append (s : String) : "" ++ s = s := by
  apply String.ext
  rw [String.data_append]
  rfl

theorem tokenTexts_map_token (ts : List String) :
    tokenTexts (ts.map StreamEvent.token) = ts := by
  induction ts with
  | nil => rfl
  | cons t ts ih =>
    show t :: tokenTexts (ts.map StreamEvent.token) = t :: ts
    rw [ih]

theorem shouldSummarize_iff (n : Nat) :
    shouldSummarize n = true ↔ (20 ∣ n ∧ 20 < n) := by
  unfold shouldSummarize
  rw [decide_eq_true_iff]
  constructor
  · rintro ⟨h1, h2⟩
    exact ⟨Nat.dvd_iff_mod_eq_zero.mpr h2, h1⟩
  · rintro ⟨h1, h2⟩
    exact ⟨h2, Nat.dvd_iff_mod_eq_zero.mp h1⟩

theorem okIndices_all_inl (outcomes : List (Nat ⊕ String))
    (hok : ∀ o ∈ outcomes, ∃ i, o = Sum.inl i) :
    (okIndices outcomes).length = outcomes.length := by
  induction outcomes with
  | nil => rfl
  | cons o rest ih =>
    obtain ⟨i, rfl⟩ := hok o (by simp)
    show (i :: okIndices rest).length = rest.length + 1
    rw [List.length_cons, ih (fun o ho => hok o (by simp [ho]))]

/-- When every task joins successfully, the tool messages reference, in
join order, the ids of the calls the join outcomes select. -/
theorem toolMessageIds_execute (exec : String → List (String × Json) → ToolResult)
    (tcs : List ToolCall) (outcomes : List (Nat ⊕ String))
    (hok : ∀ o ∈ outcomes, ∃ i, o = Sum.inl i) :
    toolMessageIds (toolMessages (execute_tools exec tcs outcomes)) =
      (okIndices outcomes).map (fun i => (tcs.getD i default).id) := by
  induction outcomes with
  | nil => rfl
  | cons o rest ih =>
    obtain ⟨i, rfl⟩ := hok o (by simp)
    show (tcs.getD i default).id :: toolMessageIds (toolMessages (execute_tools exec tcs rest)) = _
    rw [ih (fun o ho => hok o (by simp [ho]))]
    rfl

/-- The one-iteration unfolding of run_agent_loop when the first model
response carries no tool calls. -/
theorem run_agent_loop_no_tools (provider : List Message → LLMResponse)
    (exec : String → List (String × Json) → ToolResult)
    (schedule : Nat → Nat → List (Nat ⊕ String))
    (sp sm : String) (hist : List Message) (uh : Bool) (um : String) (mi : Nat)
    (h : (provider (initialMessages sp sm hist uh um)).has_tool_calls = false) :
    run_agent_loop provider exec schedule sp sm hist uh um (mi + 1) =
      { final_content :=
          if (provider (initialMessages sp sm hist uh um)).content = ""
          then maxIterationsSentinel
          else (provider (initialMessages sp sm hist uh um)).content
        messages := initialMessages sp sm hist uh um
        session := (hist ++ [Message.user um]) ++
          [Message.assistant (provider (initialMessages sp sm hist uh um)).content]
        llm_iterations := 0 + 1
        summarize_triggered := shouldSummarize ((hist ++ [Message.user um]) ++
          [Message.assistant (provider (initialMessages sp sm hist uh um)).content]).length } := by
  simp only [run_agent_loop]
  rw [loopIter_one provider exec schedule mi 0 _ _ 0 h]

/-! ## Concrete instances used by the claim theorems below -/

def cexExec : String → List (String × Json) → ToolResult := fun _ _ => ⟨"ok", "ok", false⟩

def tcA : ToolCall := ⟨"a", none, none, none, none⟩

def tcB : ToolCall := ⟨"b", none, none, none, none⟩

def stopResp (c : String) : LLMResponse := ⟨c, none, "stop", none⟩

def okBody : String := "\x7b\"choices\":[\x7b\"message\":\x7b\"content\":\"Retry worked\"\x7d\x7d]\x7d"

def threeFailsThenOk : Nat → AttemptOutcome := fun i =>
  if i < 3 then AttemptOutcome.status 500 "server error" else AttemptOutcome.status 200 okBody

def toolCallA : ToolCall :=
  { id := "call_1"
    call_type := some "function"
    function := some { name := "exec", arguments := "\x7b\x7d" }
    name := none
    arguments := none }

def twoTurn : List Message → LLMResponse := fun msgs =>
  if msgs.length ≤ 2 then ⟨"", some [toolCallA], "tool_calls", none⟩
  else stopResp "done"

def panicSchedule : Nat → Nat → List (Nat ⊕ String) := fun _ _ => [Sum.inr "boom"]

def inOrderSchedule : Nat → Nat → List (Nat ⊕ String) := fun _ k => (List.range k).map Sum.inl

def hist18 : List Message := List.replicate 18 (Message.user "m")

def diskStore : SessionStore := { cache := [], disk := [("k.json", { messages := [], summary := "S" })] }

def c5Frags : List (Nat × Option String × Option String × String) :=
  [(0, none, some "x", ""), (0, none, none, "\x7b\"a\":"), (0, none, none, "1\x7d")]

def badArgsCall : ToolCall :=
  { id := "c1"
    call_type := some "function"
    function := some { name := "exec", arguments := "not json" }
    name := none
    arguments := none }

/-! ## Claim C1 -/

/-- C1: for a batch of K tool calls whose spawned tasks all join
successfully (each join yielding a distinct in-range call index),
execute_tools produces exactly K tool-result messages whose referenced
ids are a permutation of the issued tool-call ids — but in task join
(completion) order, not necessarily issue order, which is why the
stronger frozen claim fails (see the counterexample). -/
theorem C1_tool_result_order (exec : String → List (String × Json) → ToolResult)
    (tool_calls : List ToolCall) (outcomes : List (Nat ⊕ String))
    (hv : ValidOutcomes tool_calls.length outcomes)
    (hok : ∀ o ∈ outcomes, ∃ i, o = Sum.inl i) :
    (toolMessages (execute_tools exec tool_calls outcomes)).length = tool_calls.length ∧
    List.Perm (toolMessageIds (toolMessages (execute_tools exec tool_calls outcomes)))
      (tool_calls.map (fun tc => tc.id)) := by
  obtain ⟨hlen, hmem, hnodup⟩ := hv
  constructor
  · show ((outcomes.map _).map _).length = _
    rw [List.length_map, List.length_map]
    exact hlen
  · rw [toolMessageIds_execute exec tool_calls outcomes hok]
    have hperm : List.Perm (okIndices outcomes) (List.range tool_calls.length) := by
      have hsub : okIndices outcomes ⊆ List.range tool_calls.length := by
        intro i hi
        exact List.mem_range.mpr (hmem i hi)
      refine (hnodup.subperm hsub).perm_of_length_le ?_
      rw [List.length_range, okIndices_all_inl outcomes hok, hlen]
    have h2 : (List.range tool_calls.length).map (fun i => (tool_calls.getD i default).id) =
        tool_calls.map (fun tc => tc.id) := getD_range_map tool_calls (fun tc => tc.id) default
    have h3 : List.Perm ((okIndices outcomes).map (fun i => (tool_calls.getD i default).id))
        ((List.range tool_calls.length).map (fun i => (tool_calls.getD i default).id)) :=
      hperm.map _
    rw [h2] at h3
    exact h3

theorem C1_witness :
    (toolMessages (execute_tools cexExec [tcA, tcB] [Sum.inl 1, Sum.inl 0])).length = 2 ∧
    List.Perm (toolMessageIds (toolMessages (execute_tools cexExec [tcA, tcB] [Sum.inl 1, Sum.inl 0])))
      ([tcA, tcB].map (fun tc => tc.id)) :=
  C1_tool_result_order cexExec [tcA, tcB] [Sum.inl 1, Sum.inl 0]
    ⟨rfl, by decide, by decide⟩
    (by
      intro o ho
      simp at ho
      rcases ho with rfl | rfl
      · exact ⟨1, rfl⟩
      · exact ⟨0, rfl⟩)

theorem C1_counterexample :
    toolMessageIds (toolMessages (execute_tools cexExec [tcA, tcB] [Sum.inl 1, Sum.inl 0])) = ["b", "a"] ∧
    [tcA, tcB].map (fun tc => tc.id) = ["a", "b"] ∧
    ¬ (["b", "a"] : List String) = ["a", "b"] :=
  ⟨rfl, rfl, by decide⟩

/-! ## Claim C2 -/

/-- C2: a model response without tool calls ends run_agent_loop after
exactly one LLM iteration, the session gains only the user and
assistant messages — and the returned text equals the response content
only when that content is non-empty; the empty content is replaced by
the fixed sentinel, which is why the frozen claim's "for any content
including the empty string" fails (see the counterexample). -/
theorem C2_no_tool_calls_one_iteration (provider : List Message → LLMResponse)
    (exec : String → List (String × Json) → ToolResult)
    (schedule : Nat → Nat → List (Nat ⊕ String))
    (sp sm : String) (hist : List Message) (uh : Bool) (um : String) (mi : Nat)
    (h : (provider (initialMessages sp sm hist uh um)).has_tool_calls = false) :
    (run_agent_loop provider exec schedule sp sm hist uh um (mi + 1)).llm_iterations = 1 ∧
    (run_agent_loop provider exec schedule sp sm hist uh um (mi + 1)).final_content =
      (if (provider (initialMessages sp sm hist uh um)).content = ""
       then maxIterationsSentinel
       else (provider (initialMessages sp sm hist uh um)).content) ∧
    (run_agent_loop provider exec schedule sp sm hist uh um (mi + 1)).session =
      (hist ++ [Message.user um]) ++
        [Message.assistant (provider (initialMessages sp sm hist uh um)).content] := by
  rw [run_agent_loop_no_tools provider exec schedule sp sm hist uh um mi h]
  exact ⟨rfl, rfl, rfl⟩

theorem C2_witness :
    (run_agent_loop (fun _ => stopResp "hi") cexExec (fun _ _ => []) "sys" "" [] false "go" 5).llm_iterations = 1 ∧
    (run_agent_loop (fun _ => stopResp "hi") cexExec (fun _ _ => []) "sys" "" [] false "go" 5).final_content = "hi" ∧
    (run_agent_loop (fun _ => stopResp "hi") cexExec (fun _ _ => []) "sys" "" [] false "go" 5).session =
      [Message.user "go", Message.assistant "hi"] :=
  C2_no_tool_calls_one_iteration (fun _ => stopResp "hi") cexExec (fun _ _ => []) "sys" "" [] false "go" 4 rfl

theorem C2_counterexample :
    (stopResp "").has_tool_calls = false ∧
    (run_agent_loop (fun _ => stopResp "") cexExec (fun _ _ => []) "sys" "" [] false "go" 5).final_content
      = maxIterationsSentinel ∧
    ¬ maxIterationsSentinel = (stopResp "").content :=
  ⟨rfl, rfl, by decide⟩

/-! ## Claim C3 -/

/-- C3: every emitted StreamEvent sequence splits into a body with no
terminal event followed by a tail of one of the four shapes [],
[Done], [Error], [Error, Done]: at most one Done and at most one
Error, nothing after the Done, no Error on an error-free stream, a
Done always carries the accumulated text — and the universal flush
guarantee: whenever any state was accumulated (a non-empty token text
or a tool-call fragment was emitted), the stream ends with a Done
delivering it, also after a transport Error. The frozen claim's "no
event is emitted after a Done or Error" fails: a transport error
emits Error and then still flushes the accumulated state as a
best-effort Done (see the counterexample). -/
theorem C3_event_sequence_shape (chunks : List (Except String String)) :
    ∃ body tail, processSseStream chunks = body ++ tail ∧
      (∀ e ∈ body, isTerminal e = false) ∧
      TailShape tail ∧
      ((∀ c ∈ chunks, chunkIsOk c = true) → ∀ m, ¬ StreamEvent.error m ∈ tail) ∧
      (∀ r, StreamEvent.done r ∈ tail → r.content = String.join (tokenTexts body)) ∧
      (¬ String.join (tokenTexts body) = "" ∨ hasToolDelta body = true →
        ∃ r, StreamEvent.done r ∈ tail) := by
  obtain ⟨body, tail, heq, hb, hsh, herr, hdone, _, _, hflush⟩ :=
    processChunks_ok chunks initialSseState []
  refine ⟨body, tail, heq, hb, hsh, herr, ?_, ?_⟩
  · intro r hr
    rw [hdone r hr]
    show ("" : String) ++ String.join (tokenTexts body) = String.join (tokenTexts body)
    exact string_empty_append _
  · intro hne
    by_contra hnone
    push_neg at hnone
    obtain ⟨g1, g2, _⟩ := hflush hnone
    rcases hne with h | h
    · refine absurd ?_ h
      have hg := g1
      rw [show initialSseState.full_content = ("" : String) from rfl, string_empty_append] at hg
      exact hg
    · rw [g2] at h
      exact absurd h (by simp)

theorem C3_witness :
    ∃ body tail, processSseStream [Except.ok (tokenFrame "h"), Except.error "boom"] = body ++ tail ∧
      (∀ e ∈ body, isTerminal e = false) ∧
      TailShape tail ∧
      ((∀ c ∈ [Except.ok (tokenFrame "h"), Except.error "boom"], chunkIsOk c = true) →
        ∀ m, ¬ StreamEvent.error m ∈ tail) ∧
      (∀ r, StreamEvent.done r ∈ tail → r.content = String.join (tokenTexts body)) ∧
      (¬ String.join (tokenTexts body) = "" ∨ hasToolDelta body = true →
        ∃ r, StreamEvent.done r ∈ tail) :=
  C3_event_sequence_shape [Except.ok (tokenFrame "h"), Except.error "boom"]

theorem C3_counterexample :
    processSseStream [Except.ok (tokenFrame "h"), Except.error "boom"] =
      [StreamEvent.token "h", StreamEvent.error "Stream error: boom",
       StreamEvent.done { content := "h", tool_calls := none, finish_reason := "stop", usage := none }] ∧
    isTerminal (StreamEvent.error "Stream error: boom") = true :=
  ⟨rfl, rfl⟩

/-! ## Claim C4 -/

/-- C4: the chat retry loop makes at most maxRetries + 1 attempts; an
attempt is followed by another only when it failed with a connection
error or a transient status (5xx or 429); one fixed delay is slept
before every retry; when every attempt up to the cap fails transiently
the surfaced error is the last attempt's; a fatal non-success status
or a success terminates at once with the corresponding result; and on
the input of three 500 responses followed by a 200, max_retries = 3
succeeds while max_retries = 2 surfaces the 500 error. -/
theorem C4_retry_policy :
    (∀ f n d, (chat f n d).snd.fst ≤ n + 1) ∧
    (∀ f n d i, i + 1 < (chat f n d).snd.fst → transientFail (f i) = true) ∧
    (∀ f n d, (chat f n d).snd.snd = List.replicate ((chat f n d).snd.fst - 1) d) ∧
    (∀ f n d, (∀ i, i ≤ n → transientFail (f i) = true) →
      (chat f n d).fst = Except.error (errorTextOf (f n))) ∧
    (∀ f n d k c b, f k = AttemptOutcome.status c b → isSuccessCode c = false →
      isTransientStatus c = false → k ≤ n → (∀ i, i < k → transientFail (f i) = true) →
      chat f n d = (Except.error (errorTextOf (AttemptOutcome.status c b)), k + 1, List.replicate k d)) ∧
    (∀ f n d k c b, f k = AttemptOutcome.status c b → isSuccessCode c = true →
      k ≤ n → (∀ i, i < k → transientFail (f i) = true) →
      chat f n d = (parse_response b, k + 1, List.replicate k d)) ∧
    chatResult threeFailsThenOk 3 =
      Except.ok { content := "Retry worked", tool_calls := none, finish_reason := "stop", usage := none } ∧
    chatResult threeFailsThenOk 2 = Except.error "LLM API error (500): server error" := by
  refine ⟨?_, ?_, ?_, ?_, ?_, ?_, rfl, rfl⟩
  · intro f n d
    have h := chatLoop_attempts_le f n d (n + 1) 0 none
    show (chatLoop f n d (n + 1) 0 none).snd.fst ≤ n + 1
    omega
  · intro f n d i h
    exact chatLoop_retry_transient f n d (n + 1) 0 none i (Nat.zero_le i) h
  · intro f n d
    exact chatLoop_delays f n d (n + 1) 0 none
  · intro f n d h
    exact chatLoop_all_transient f n d h n 0 none (by omega)
  · intro f n d k c b hf h1 h2 hk htr
    exact chatLoop_fatal_at f n d k c b hf h1 h2 (n + 1) 0 none (Nat.zero_le k) (by omega)
      (fun i _ hi => htr i hi) (fun i _ hi => Nat.lt_of_lt_of_le hi hk)
  · intro f n d k c b hf h1 hk htr
    exact chatLoop_success_at f n d k c b hf h1 (n + 1) 0 none (Nat.zero_le k) (by omega)
      (fun i _ hi => htr i hi) (fun i _ hi => Nat.lt_of_lt_of_le hi hk)

/-! ## Claim C5 -/

/-- C5: tool-call delta fragments are merged per index — an id or name
fragment overwrites the stored value when present, argument fragments
concatenate in arrival order — and at the sentinel the accumulated
entries, sorted by index, become the tool-call list (none when no
fragment arrived): the code's accumulator (accStep folded over the
fragments, then finalizeToolCalls) equals the spec-side description
specToolCalls; in particular the claim's three index-0 fragments
reconstruct one call named x with arguments \x7b"a":1\x7d. -/
theorem C5_delta_merge :
    (∀ ds, finalizeToolCalls (accFold ds) = if ds.isEmpty then none else some (specToolCalls ds)) ∧
    (∀ ds st, (stepToolDeltas st ds).fst.tool_calls_acc =
      ds.foldl (fun a d => accStep a d.fst d.snd.fst d.snd.snd.fst d.snd.snd.snd) st.tool_calls_acc) ∧
    finalizeToolCalls (accFold c5Frags) =
      some [{ id := "", call_type := some "function",
              function := some { name := "x", arguments := "\x7b\"a\":1\x7d" },
              name := none, arguments := none }] :=
  ⟨accFold_finalize, fun ds st => stepToolDeltas_acc ds st, rfl⟩

/-! ## Claim C6 -/

/-- C6: a synthetic SSE input of N token frames followed by the [DONE]
marker yields exactly the N Token events in frame order followed by
one Done event whose content is the concatenation of the fragments —
provided every fragment is non-empty (and needs no JSON escaping): the
transport drops empty content deltas, which is why the frozen claim's
unconditional count of N fails (see the counterexample). -/
theorem C6_token_stream (ts : List String)
    (hsafe : ∀ t ∈ ts, jsonSafe t) (hne : ∀ t ∈ ts, ¬ t = "") :
    processSseStream [Except.ok (sseInput ts)] =
      ts.map StreamEvent.token ++
        [StreamEvent.done { content := String.join ts, tool_calls := none,
                            finish_reason := "stop", usage := none }] ∧
    tokenTexts (processSseStream [Except.ok (sseInput ts)]) = ts := by
  have h := sse_token_stream ts hsafe hne
  refine ⟨h, ?_⟩
  rw [h, tokenTexts_append, tokenTexts_map_token]
  show ts ++ [] = ts
  exact List.append_nil ts

theorem C6_witness :
    processSseStream [Except.ok (sseInput ["he", "llo"])] =
      ["he", "llo"].map StreamEvent.token ++
        [StreamEvent.done { content := String.join ["he", "llo"], tool_calls := none,
                            finish_reason := "stop", usage := none }] ∧
    tokenTexts (processSseStream [Except.ok (sseInput ["he", "llo"])]) = ["he", "llo"] :=
  C6_token_stream ["he", "llo"] (by decide) (by decide)

theorem C6_counterexample :
    processSseStream [Except.ok (sseInput [""])] =
      [StreamEvent.done { content := "", tool_calls := none, finish_reason := "stop", usage := none }] ∧
    tokenTexts (processSseStream [Except.ok (sseInput [""])]) = [] ∧
    ¬ ([] : List String).length = [""].length :=
  ⟨rfl, rfl, by decide⟩

/-! ## Claim C7 -/

/-- C7: after an agent-loop run, summarization is triggered exactly
when the session's message count is a multiple of 20 that is strictly
greater than 20 — not every positive multiple: the count of exactly 20
does not trigger it, refuting the frozen claim's "in particular when
the count is exactly 20" (see the counterexample). -/
theorem C7_summarize_trigger (provider : List Message → LLMResponse)
    (exec : String → List (String × Json) → ToolResult)
    (schedule : Nat → Nat → List (Nat ⊕ String))
    (sp sm : String) (hist : List Message) (uh : Bool) (um : String) (mi : Nat) :
    (run_agent_loop provider exec schedule sp sm hist uh um mi).summarize_triggered = true ↔
      (20 ∣ (run_agent_loop provider exec schedule sp sm hist uh um mi).session.length ∧
       20 < (run_agent_loop provider exec schedule sp sm hist uh um mi).session.length) :=
  shouldSummarize_iff (run_agent_loop provider exec schedule sp sm hist uh um mi).session.length

theorem C7_counterexample :
    (run_agent_loop (fun _ => stopResp "done") cexExec (fun _ _ => []) "sys" "" hist18 true "hi" 5).session.length = 20 ∧
    ((20 : Nat) ∣ 20 ∧ 0 < 20) ∧
    (run_agent_loop (fun _ => stopResp "done") cexExec (fun _ _ => []) "sys" "" hist18 true "hi" 5).summarize_triggered = false :=
  ⟨rfl, by decide, rfl⟩

/-! ## Claim C8 -/

/-- C8: when every spawned tool task joins successfully with an
in-range call index, every tool message the loop appends (to the live
list and to the session) carries a tool_call_id that appears among the
tool calls of a preceding assistant message — given start lists that
already satisfy the invariant. The frozen claim's "including when a
spawned tool task panics or its join fails" fails: a join error yields
a tool message with the fixed id "unknown", which references no
preceding tool call (see the counterexample). -/
theorem C8_tool_message_linkage (provider : List Message → LLMResponse)
    (exec : String → List (String × Json) → ToolResult)
    (schedule : Nat → Nat → List (Nat ⊕ String))
    (sp sm : String) (hist : List Message) (uh : Bool) (um : String) (mi : Nat)
    (hsch : ∀ idx k, ∀ o ∈ schedule idx k, ∃ i, o = Sum.inl i ∧ i < k)
    (hmsgs : toolLinked (initialMessages sp sm hist uh um) = true)
    (hsess : toolLinked (hist ++ [Message.user um]) = true) :
    toolLinked (run_agent_loop provider exec schedule sp sm hist uh um mi).messages = true ∧
    toolLinked (run_agent_loop provider exec schedule sp sm hist uh um mi).session = true :=
  loopIter_linked provider exec schedule hsch mi 0
    (initialMessages sp sm hist uh um) (hist ++ [Message.user um]) 0 hmsgs hsess

theorem C8_witness :
    toolLinked (run_agent_loop twoTurn cexExec inOrderSchedule "sys" "" [] false "hi" 5).messages = true ∧
    toolLinked (run_agent_loop twoTurn cexExec inOrderSchedule "sys" "" [] false "hi" 5).session = true :=
  C8_tool_message_linkage twoTurn cexExec inOrderSchedule "sys" "" [] false "hi" 5
    (by
      intro idx k o ho
      unfold inOrderSchedule at ho
      rw [List.mem_map] at ho
      obtain ⟨i, hi, rfl⟩ := ho
      exact ⟨i, rfl, List.mem_range.mp hi⟩)
    rfl rfl

theorem C8_counterexample :
    toolMessageIds (run_agent_loop twoTurn cexExec panicSchedule "sys" "" [] false "hi" 5).session = ["unknown"] ∧
    toolLinked (run_agent_loop twoTurn cexExec panicSchedule "sys" "" [] false "hi" 5).session = false :=
  ⟨rfl, rfl⟩

/-! ## Claim C9 -/

/-- C9: get_summary consults only the in-memory cache: for a key
absent from the cache whose session file sits on disk, get_summary
returns the empty string — it does not load from disk the way
get_messages does; the persisted summary becomes visible only after
get_messages populates the cache. This refutes the frozen claim that
the summary read path loads from disk on a cache miss (see the
counterexample). -/
theorem C9_summary_cache_only (st : SessionStore) (key : String) (d : SessionData)
    (hc : lookupAssoc st.cache key = none)
    (hd : lookupAssoc st.disk (session_path key) = some d) :
    get_summary st key = "" ∧
    (get_messages st key).fst = d.messages ∧
    get_summary (get_messages st key).snd key = d.summary := by
  have hgm := get_messages_miss st key d hc hd
  refine ⟨?_, ?_, ?_⟩
  · unfold get_summary
    rw [hc]
    rfl
  · rw [hgm]
  · rw [hgm]
    unfold get_summary
    show ((lookupAssoc (insertAssoc st.cache key d) key).map (fun s => s.summary)).getD "" = d.summary
    rw [insertAssoc_lookup st.cache key d hc]
    rfl

theorem C9_witness :
    get_summary diskStore "k" = "" ∧
    (get_messages diskStore "k").fst = ([] : List Message) ∧
    get_summary (get_messages diskStore "k").snd "k" = "S" :=
  C9_summary_cache_only diskStore "k" { messages := [], summary := "S" } rfl rfl

theorem C9_counterexample :
    get_summary diskStore "k" = "" ∧
    lookupAssoc diskStore.disk (session_path "k") = some { messages := [], summary := "S" } ∧
    ¬ ("" : String) = "S" :=
  ⟨rfl, rfl, by decide⟩

/-! ## Claim C10 -/

/-- C10: a ToolCall whose nested function.arguments string is not a
JSON object (invalid JSON included) still yields the empty argument
map from parsed_arguments — no failure is surfaced — and the
dispatcher's per-task closure therefore executes the named tool with
no arguments, producing an ordinary result. -/
theorem C10_unparseable_arguments (exec : String → List (String × Json) → ToolResult)
    (tc : ToolCall) (fc : FunctionCall) (hf : tc.function = some fc)
    (h : ∀ ms, ¬ parseJson fc.arguments = some (Json.obj ms)) :
    tc.parsed_arguments = [] ∧
    runOneTool exec tc =
      { tool_call_id := tc.id
        tool_name := tc.function_name
        output := (exec tc.function_name []).for_llm
        success := ¬ (exec tc.function_name []).is_error } := by
  have hargs : tc.parsed_arguments = [] := by
    cases hp : parseJson fc.arguments with
    | none =>
      simp only [ToolCall.parsed_arguments, hf, hp]
    | some v =>
      cases v with
      | null => simp only [ToolCall.parsed_arguments, hf, hp]
      | bool b => simp only [ToolCall.parsed_arguments, hf, hp]
      | num a b => simp only [ToolCall.parsed_arguments, hf, hp]
      | str a => simp only [ToolCall.parsed_arguments, hf, hp]
      | arr a => simp only [ToolCall.parsed_arguments, hf, hp]
      | obj ms => exact absurd hp (h ms)
  refine ⟨hargs, ?_⟩
  unfold runOneTool
  rw [hargs]

theorem C10_witness :
    badArgsCall.parsed_arguments = [] ∧
    runOneTool cexExec badArgsCall =
      { tool_call_id := "c1"
        tool_name := "exec"
        output := (cexExec "exec" []).for_llm
        success := ¬ (cexExec "exec" []).is_error } :=
  C10_unparseable_arguments cexExec badArgsCall { name := "exec", arguments := "not json" } rfl
    (by
      intro ms hc
      rw [show parseJson "not json" = none from rfl] at hc
      exact Option.noConfusion hc)

end QuectoClaw
